import Mathlib

/-!
Verification of the zodb-convert storage copier.

This file shallowly embeds the core of the repository:

* `copier.py` — `storage_has_data`, `get_incremental_start_tid` and the
  transaction-copy engine `copy_transactions`, embedded as a trace-producing
  interpreter over an explicit environment that models the external
  collaborators (blob classification, `loadBlob`, `shutil.copy2`,
  destination calls and their possible failures, the TID returned by
  `tpc_finish`).
* `progress.py` — the counter updates of `ProgressReporter.on_transaction`.
* `config.py` — `open_storages`.
* `cli.py` — the exception-to-exit-code mapping of `main`.

TIDs, OIDs, file paths and storage handles are opaque 8-byte tokens in the
program; they are modelled as `Nat`.  Byte strings are `List Nat`.  Python
exceptions are modelled by `PyExc`; a raised exception is an `Except.error`
carrying the exception, the engine state and the event trace produced so far.
-/

/-- A data record `(oid, tid, data, data_txn)` as yielded by a source
transaction.  `data` is `none` for Python `None` and `some bytes` otherwise. -/
structure Record where
  oid : Nat
  tid : Nat
  data : Option (List Nat)
  data_txn : Option Nat
deriving DecidableEq

/-- A source transaction entry: TID, status and the ordered record sequence. -/
structure TxnInfo where
  tid : Nat
  status : Nat
  records : List Record
deriving DecidableEq

/-- The capability record produced by `detect_capabilities`. -/
structure Caps where
  source_has_iterator : Bool
  source_has_blobs : Bool
  dest_has_restore : Bool
  dest_has_blob_restore : Bool
  dest_has_blobs : Bool
deriving DecidableEq

/-- Python exception classes distinguished by the CLI's `except` clauses. -/
inductive PyExc where
  | valueError
  | osError
  | generic
deriving DecidableEq

/-- Observable events of one `copy_transactions` invocation.  Destination
storage calls, blob classification and staging-file operations, progress
notifications, and the source-iterator close are all recorded. -/
inductive Ev where
  | tpcBeginRestore (tid status : Nat)
  | tpcBegin (tid : Nat)
  | blobCheck (data : List Nat)
  | loadBlobCall (oid tid : Nat)
  | blobWarn (oid tid : Nat)
  | mkstemp (path : Nat)
  | copyBlob (src dst : Nat)
  | restoreBlob (oid tid : Nat) (data : Option (List Nat)) (path : Nat) (dtxn : Option Nat)
  | storeBlob (oid : Nat) (prev : Option Nat) (data : Option (List Nat)) (path : Nat)
  | restoreRec (oid tid : Nat) (data : Option (List Nat)) (dtxn : Option Nat)
  | storeRec (oid : Nat) (prev : Option Nat) (data : Option (List Nat))
  | tpcVote (tid : Nat)
  | tpcFinish (tid : Nat)
  | tpcAbort (tid : Nat)
  | unlink (path : Nat)
  | progressEv (tid rc bs bc : Nat)
  | iterClose
deriving DecidableEq

/-- Environment: the behaviour of the external collaborators of the engine.
`dest_fail_at` injects a failure into the n-th destination storage call;
`copy2_ok` says whether `shutil.copy2` from a given source blob file
succeeds; `finish_tid` is the TID returned by the destination's
`tpc_finish` (`none` models a falsy return). -/
structure Env where
  is_blob_record : List Nat → Bool
  loadBlob : Nat → Nat → Option Nat
  blobSize : Nat → Nat
  copy2_ok : Nat → Bool
  dest_fail_at : Option Nat
  finish_tid : Nat → Option Nat

/-- Mutable state of `copy_transactions`: the three counters, the `preindex`
mapping (a Python dict, modelled as a function), the pending staging-file
list `temp_blobs`, a fresh-name counter for `tempfile.mkstemp`, and the
number of destination calls made so far (for failure injection). -/
structure St where
  txn_count : Nat
  obj_count : Nat
  blob_count : Nat
  preindex : Nat → Option Nat
  temp_blobs : List Nat
  next_path : Nat
  dcalls : Nat

/-- The state at entry of `copy_transactions`. -/
def initSt : St :=
  { txn_count := 0, obj_count := 0, blob_count := 0, preindex := fun _ => none,
    temp_blobs := [], next_path := 0, dcalls := 0 }

/-- Python truthiness of a `bytes-or-None` value. -/
def dataTruthy : Option (List Nat) → Bool
  | none => false
  | some d => !d.isEmpty

/-- `len(data)` contribution of a record to `txn_byte_size`
(`if data: txn_byte_size += len(data)`, copier.py line 162). -/
def dataLen : Option (List Nat) → Nat
  | none => 0
  | some d => d.length

/-- One call on the destination storage.  Emits the event; raises a generic
exception when the injected failure index is reached. -/
def destCall (env : Env) (st : St) (e : Ev) :
    Except (PyExc × St × List Ev) (St × List Ev) :=
  let st' := { st with dcalls := st.dcalls + 1 }
  if env.dest_fail_at = some st.dcalls then .error (.generic, st', [e])
  else .ok (st', [e])

/-- Blob classification of a record, copier.py lines 116-131: `data and
source_has_blobs and dest_has_blobs and is_blob_record(data)` with Python
short-circuiting, then the guarded `loadBlob` attempt whose failure is
logged and recovered.  Returns the `blob_filename` (`none` if the record is
handled as a plain record) and the events produced. -/
def classify (env : Env) (caps : Caps) (r : Record) : Option Nat × List Ev :=
  match r.data with
  | none => (none, [])
  | some d =>
    if d.isEmpty then (none, [])
    else if caps.source_has_blobs && caps.dest_has_blobs then
      if env.is_blob_record d then
        match env.loadBlob r.oid r.tid with
        | some path => (some path, [Ev.blobCheck d, Ev.loadBlobCall r.oid r.tid])
        | none =>
          (none, [Ev.blobCheck d, Ev.loadBlobCall r.oid r.tid, Ev.blobWarn r.oid r.tid])
      else (none, [Ev.blobCheck d])
    else (none, [])

/-- Processing of one record inside the per-transaction loop, copier.py
lines 112-164.  `tid` is the TID of the enclosing source transaction.
Returns the new state, the events emitted, and the record's contributions
to `txn_byte_size` and `txn_blobs`. -/
def processRecord (env : Env) (caps : Caps) (tid : Nat) (r : Record) (st : St) :
    Except (PyExc × St × List Ev) (St × List Ev × Nat × Nat) :=
  let (bf, evC) := classify env caps r
  match bf with
  | some src_path =>
    let p := st.next_path
    let st1 := { st with next_path := p + 1 }
    if env.copy2_ok src_path then
      let st2 := { st1 with temp_blobs := st1.temp_blobs ++ [p] }
      let bsz := env.blobSize src_path
      if caps.dest_has_blob_restore then
        match destCall env st2 (Ev.restoreBlob r.oid r.tid r.data p r.data_txn) with
        | .error (e, st3, evW) => .error (e, st3, evC ++ [Ev.mkstemp p, Ev.copyBlob src_path p] ++ evW)
        | .ok (st3, evW) =>
          .ok ({ st3 with obj_count := st3.obj_count + 1 },
               evC ++ [Ev.mkstemp p, Ev.copyBlob src_path p] ++ evW,
               bsz + dataLen r.data, 1)
      else
        let pre := st2.preindex r.oid
        match destCall env st2 (Ev.storeBlob r.oid pre r.data p) with
        | .error (e, st3, evW) => .error (e, st3, evC ++ [Ev.mkstemp p, Ev.copyBlob src_path p] ++ evW)
        | .ok (st3, evW) =>
          .ok ({ st3 with obj_count := st3.obj_count + 1,
                          preindex := fun o => if o = r.oid then some tid else st3.preindex o },
               evC ++ [Ev.mkstemp p, Ev.copyBlob src_path p] ++ evW,
               bsz + dataLen r.data, 1)
    else
      .error (.osError, st1, evC ++ [Ev.mkstemp p])
  | none =>
    if caps.dest_has_restore then
      match destCall env st (Ev.restoreRec r.oid r.tid r.data r.data_txn) with
      | .error (e, st', evW) => .error (e, st', evC ++ evW)
      | .ok (st', evW) =>
        .ok ({ st' with obj_count := st'.obj_count + 1 }, evC ++ evW, dataLen r.data, 0)
    else
      let pre := st.preindex r.oid
      match destCall env st (Ev.storeRec r.oid pre r.data) with
      | .error (e, st', evW) => .error (e, st', evC ++ evW)
      | .ok (st', evW) =>
        .ok ({ st' with obj_count := st'.obj_count + 1,
                        preindex := fun o => if o = r.oid then some tid else st'.preindex o },
             evC ++ evW, dataLen r.data, 0)

/-- The `for record in txn_info` loop, accumulating `txn_byte_size` and
`txn_blobs`. -/
def processRecords (env : Env) (caps : Caps) (tid : Nat) :
    List Record → St → Nat → Nat → Except (PyExc × St × List Ev) (St × List Ev × Nat × Nat)
  | [], st, tb, tbl => .ok (st, [], tb, tbl)
  | r :: rs, st, tb, tbl =>
    match processRecord env caps tid r st with
    | .error (e, st', ev) => .error (e, st', ev)
    | .ok (st', ev, db, dbl) =>
      match processRecords env caps tid rs st' (tb + db) (tbl + dbl) with
      | .error (e, st'', ev2) => .error (e, st'', ev ++ ev2)
      | .ok (st'', ev2, tb', tbl') => .ok (st'', ev ++ ev2, tb', tbl')

/-- Rewrite of the preindex after `tpc_finish`, copier.py lines 171-175:
every entry whose value equals the provisional `tid` becomes the
`committed_tid`. -/
def promote (pre : Nat → Option Nat) (tid c : Nat) : Nat → Option Nat :=
  fun o =>
    match pre o with
    | some v => if v = tid then some c else some v
    | none => none

/-- Processing of one source transaction, copier.py lines 90-184: the
dry-run branch, `tpc_begin`, the record loop, `tpc_vote`/`tpc_finish`,
preindex promotion, per-transaction staging cleanup and the progress
notification.  The progress call passes the engine's running `obj_count`,
exactly as the source does. -/
def processTxn (env : Env) (caps : Caps) (dry prog : Bool) (t : TxnInfo) (st : St) :
    Except (PyExc × St × List Ev) (St × List Ev) :=
  if dry then
    let rc := t.records.length
    let st' := { st with obj_count := st.obj_count + rc, txn_count := st.txn_count + 1 }
    .ok (st', if prog then [Ev.progressEv t.tid rc 0 0] else [])
  else
    let beginEv := if caps.dest_has_restore then Ev.tpcBeginRestore t.tid t.status
                   else Ev.tpcBegin t.tid
    match destCall env st beginEv with
    | .error (e, st1, ev1) => .error (e, st1, ev1)
    | .ok (st1, ev1) =>
      match processRecords env caps t.tid t.records st1 0 0 with
      | .error (e, st2, ev2) => .error (e, st2, ev1 ++ ev2)
      | .ok (st2, ev2, tb, tbl) =>
        match destCall env st2 (Ev.tpcVote t.tid) with
        | .error (e, st3, ev3) => .error (e, st3, ev1 ++ ev2 ++ ev3)
        | .ok (st3, ev3) =>
          match destCall env st3 (Ev.tpcFinish t.tid) with
          | .error (e, st4, ev4) => .error (e, st4, ev1 ++ ev2 ++ ev3 ++ ev4)
          | .ok (st4, ev4) =>
            let st5 := { st4 with txn_count := st4.txn_count + 1,
                                  blob_count := st4.blob_count + tbl }
            let st6 :=
              if caps.dest_has_restore then st5
              else
                match env.finish_tid t.tid with
                | some c => { st5 with preindex := promote st5.preindex t.tid c }
                | none => st5
            let evU := st6.temp_blobs.map Ev.unlink
            let st7 := { st6 with temp_blobs := [] }
            let evP := if prog then [Ev.progressEv t.tid st7.obj_count tb tbl] else []
            .ok (st7, ev1 ++ ev2 ++ ev3 ++ ev4 ++ evU ++ evP)

/-- The `for txn_info in fiter` loop. -/
def runTxns (env : Env) (caps : Caps) (dry prog : Bool) :
    List TxnInfo → St → Except (PyExc × St × List Ev) (St × List Ev)
  | [], st => .ok (st, [])
  | t :: ts, st =>
    match processTxn env caps dry prog t st with
    | .error (e, st', ev) => .error (e, st', ev)
    | .ok (st', ev) =>
      match runTxns env caps dry prog ts st' with
      | .error (e, st'', ev2) => .error (e, st'', ev ++ ev2)
      | .ok (st'', ev2) => .ok (st'', ev ++ ev2)

/-- `source.iterator(start=start_tid)`: the transactions with TID at least
`start_tid`, in source order. -/
def iterFrom (txns : List TxnInfo) : Option Nat → List TxnInfo
  | none => txns
  | some s => txns.filter (fun t => s ≤ t.tid)

/-- The `finally` block, copier.py lines 186-192: close the source iterator,
then unlink every still-pending staging file (errors suppressed). -/
def finallyEvs (st : St) : List Ev :=
  Ev.iterClose :: st.temp_blobs.map Ev.unlink

/-- The copy engine `copy_transactions(source, destination, start_tid,
dry_run, progress)`.  The result carries the final state (whose counters
are the returned `(txn_count, obj_count, blob_count)` triple) and the full
event trace including the `finally` cleanup; a raised exception carries the
same data. -/
def copy_transactions (env : Env) (caps : Caps) (source : List TxnInfo)
    (start_tid : Option Nat) (dry_run : Bool) (prog : Bool) :
    Except (PyExc × St × List Ev) (St × List Ev) :=
  if caps.source_has_iterator = false then .error (.valueError, initSt, [])
  else
    match runTxns env caps dry_run prog (iterFrom source start_tid) initSt with
    | .ok (st, ev) => .ok (st, ev ++ finallyEvs st)
    | .error (e, st, ev) => .error (e, st, ev ++ finallyEvs st)

/-- Whether an invocation result is a normal return. -/
def excOk {ε α : Type} : Except ε α → Bool
  | .ok _ => true
  | .error _ => false

/-- The event trace of an invocation, normal or raising. -/
def excTrace : Except (PyExc × St × List Ev) (St × List Ev) → List Ev
  | .ok (_, tr) => tr
  | .error (_, _, tr) => tr

/-- The final engine state of an invocation, normal or raising. -/
def excState : Except (PyExc × St × List Ev) (St × List Ev) → St
  | .ok (st, _) => st
  | .error (_, st, _) => st

/-- Is an event a `tpc_abort` call? -/
def isAbortEv : Ev → Bool
  | .tpcAbort _ => true
  | _ => false

/-- Does a trace contain a `tpc_abort` call? -/
def hasAbortEv (tr : List Ev) : Bool :=
  tr.any isAbortEv

/-- Events that are calls on the destination storage. -/
def isDestOp : Ev → Bool
  | .tpcBeginRestore _ _ => true
  | .tpcBegin _ => true
  | .restoreBlob _ _ _ _ _ => true
  | .storeBlob _ _ _ _ => true
  | .restoreRec _ _ _ _ => true
  | .storeRec _ _ _ => true
  | .tpcVote _ => true
  | .tpcFinish _ => true
  | .tpcAbort _ => true
  | _ => false

/-- The `(oid, prev_serial)` arguments of the `store`/`storeBlob` calls of a
trace, in order. -/
def storePrevs : List Ev → List (Nat × Option Nat)
  | [] => []
  | Ev.storeRec o p _ :: es => (o, p) :: storePrevs es
  | Ev.storeBlob o p _ _ :: es => (o, p) :: storePrevs es
  | _ :: es => storePrevs es

/-- The `(tid, record_count, byte_size, blob_count)` arguments of the
progress notifications of a trace, in order. -/
def progressEvents : List Ev → List (Nat × Nat × Nat × Nat)
  | [] => []
  | Ev.progressEv t rc bs bc :: es => (t, rc, bs, bc) :: progressEvents es
  | _ :: es => progressEvents es

/-- Counter state of `ProgressReporter` (progress.py). -/
structure Reporter where
  txn_count : Nat
  obj_count : Nat
  blob_count : Nat
  total_bytes : Nat
deriving DecidableEq

/-- A fresh reporter. -/
def Reporter.init : Reporter :=
  { txn_count := 0, obj_count := 0, blob_count := 0, total_bytes := 0 }

/-- The counter updates of `ProgressReporter.on_transaction`, progress.py
lines 66-71: the `record_count`, `byte_size` and `blob_count` arguments are
accumulated as per-transaction deltas. -/
def Reporter.on_transaction (rep : Reporter) (record_count byte_size blob_count : Nat) :
    Reporter :=
  { txn_count := rep.txn_count + 1,
    obj_count := rep.obj_count + record_count,
    blob_count := rep.blob_count + blob_count,
    total_bytes := rep.total_bytes + byte_size }

/-- Feed the progress notifications of a trace into the reporter. -/
def Reporter.feed (rep : Reporter) : List (Nat × Nat × Nat × Nat) → Reporter
  | [] => rep
  | (_, rc, bs, bc) :: rest => Reporter.feed (rep.on_transaction rc bs bc) rest

/-- Total number of records of a transaction list. -/
def sumRecs (ts : List TxnInfo) : Nat :=
  ts.foldr (fun t acc => t.records.length + acc) 0

/-- `ZODB.utils.u64`: an 8-byte big-endian string as an unsigned integer. -/
def u64 (bs : List Nat) : Nat :=
  bs.foldl (fun a b => a * 256 + b) 0

/-- `ZODB.utils.p64`: the 8-byte big-endian representation of `v`; raises
for values not representable in 64 bits. -/
def p64 (v : Nat) : Option (List Nat) :=
  if v < 2 ^ 64 then
    some [v / 2 ^ 56 % 256, v / 2 ^ 48 % 256, v / 2 ^ 40 % 256, v / 2 ^ 32 % 256,
          v / 2 ^ 24 % 256, v / 2 ^ 16 % 256, v / 2 ^ 8 % 256, v % 256]
  else none

/-- `storage_has_data(storage)`: `next(storage.iterator())` succeeds iff the
storage holds at least one transaction. -/
def storage_has_data (txns : List TxnInfo) : Bool :=
  !txns.isEmpty

/-- The value returned by `destination.lastTransaction()`: either 8 bytes or
already an integer (copier.py lines 53-55 convert the former with `u64`). -/
inductive TidVal where
  | bytes (bs : List Nat)
  | int (n : Nat)
deriving DecidableEq

/-- The integer value of a `lastTransaction()` result. -/
def tidToNat : TidVal → Nat
  | .bytes bs => u64 bs
  | .int n => n

/-- `get_incremental_start_tid(destination)`, copier.py lines 46-56:
`none` payload when the destination holds no transactions, otherwise
`p64(u64(last_tid) + 1)`. -/
def get_incremental_start_tid (txns : List TxnInfo) (lastT : TidVal) :
    Except PyExc (Option (List Nat)) :=
  if storage_has_data txns = false then .ok none
  else
    match p64 (tidToNat lastT + 1) with
    | some bs => .ok (some bs)
    | none => .error .valueError

/-- CLI options relevant to `open_storages` (config paths are opaque
tokens; `none` models an absent option). -/
structure CliOptions where
  config_file : Option Nat
  source_zope_conf : Option Nat
  dest_zope_conf : Option Nat
  source_db : Nat
  dest_db : Nat
deriving DecidableEq

/-- Behaviour of the two storage-opening collaborators of `open_storages`:
`fromConfigFile` is `open_storages_from_config` (either section may be
absent), `fromZopeConf` is `open_storage_from_zope_conf` (which may raise,
e.g. when the requested db section is missing). -/
structure ConfigEnv where
  fromConfigFile : Nat → Option Nat × Option Nat
  fromZopeConf : Nat → Nat → Except PyExc Nat

/-- One side of the zope.conf handling in `open_storages` (config.py lines
138-158): duplicate specification raises `ValueError`; a storage opened
from a zope.conf is appended to `closables`. -/
def zopeSide (ce : ConfigEnv) (cur : Option Nat) (conf : Option Nat) (db : Nat) :
    Except PyExc (Option Nat × List Nat) :=
  match conf with
  | none => .ok (cur, [])
  | some p =>
    match cur with
    | some _ => .error .valueError
    | none =>
      match ce.fromZopeConf p db with
      | .error e => .error e
      | .ok s => .ok (some s, [s])

/-- The source (`cfgSource`) and destination (`cfgDest`) storages resolved
from the declarative config file, when one was given (config.py lines
130-136). -/
def cfgSource (ce : ConfigEnv) : Option Nat → Option Nat
  | some p => (ce.fromConfigFile p).1
  | none => none

/-- See `cfgSource`. -/
def cfgDest (ce : ConfigEnv) : Option Nat → Option Nat
  | some p => (ce.fromConfigFile p).2
  | none => none

/-- `open_storages(options)`, config.py lines 115-169. -/
def open_storages (ce : ConfigEnv) (o : CliOptions) :
    Except PyExc (Nat × Nat × List Nat) :=
  match zopeSide ce (cfgSource ce o.config_file) o.source_zope_conf o.source_db with
  | .error e => .error e
  | .ok (srcOpt, cls1) =>
    match zopeSide ce (cfgDest ce o.config_file) o.dest_zope_conf o.dest_db with
    | .error e => .error e
    | .ok (dstOpt, cls2) =>
      match srcOpt with
      | none => .error .valueError
      | some s =>
        match dstOpt with
        | none => .error .valueError
        | some d => .ok (s, d, cls1 ++ cls2)

/-- The exit code produced by the `except` clauses of `cli.main`
(cli.py lines 154-159): `ValueError`/`FileNotFoundError` exit 1, any other
exception exits 2, a normal return exits 0. -/
def cliExitCode (r : Except (PyExc × St × List Ev) (St × List Ev)) : Nat :=
  match r with
  | .ok _ => 0
  | .error (.valueError, _, _) => 1
  | .error (.osError, _, _) => 2
  | .error (.generic, _, _) => 2

/-- Specification-side definition (from the claim's words, for comparison
with the engine): the map holding, for each OID, the TID committed by the
most recent destination transaction of this run that wrote the OID, after
one more source transaction `t` commits. -/
def stepMap (env : Env) (m : Nat → Option Nat) (t : TxnInfo) : Nat → Option Nat :=
  fun o => if o ∈ t.records.map Record.oid then env.finish_tid t.tid else m o

/-- Specification-side definition (from the claim's words): the expected
`(oid, prev_serial)` sequence of the store calls of a fallback-path run —
for each record, the TID most recently committed for its OID so far in the
run (or `none`), the map being updated after each commit. -/
def specPrevSeq (env : Env) : List TxnInfo → (Nat → Option Nat) → List (Nat × Option Nat)
  | [], _ => []
  | t :: ts, m =>
    (t.records.map fun r => (r.oid, m r.oid)) ++ specPrevSeq env ts (stepMap env m t)

/-- A trivial environment used for concrete evaluations. -/
def envTriv : Env :=
  { is_blob_record := fun _ => false, loadBlob := fun _ _ => none,
    blobSize := fun _ => 0, copy2_ok := fun _ => true,
    dest_fail_at := none, finish_tid := fun _ => some 0 }

lemma zopeSide_ok (ce : ConfigEnv) (cur conf : Option Nat) (db : Nat)
    (res : Option Nat × List Nat) (h : zopeSide ce cur conf db = .ok res) :
    (conf = none ∧ res = (cur, [])) ∨
    (∃ p v, conf = some p ∧ cur = none ∧ ce.fromZopeConf p db = .ok v ∧
      res = (some v, [v])) := by
  cases conf with
  | none =>
    left
    simp [zopeSide] at h
    exact ⟨rfl, h.symm⟩
  | some p =>
    right
    cases cur with
    | some c => simp [zopeSide] at h
    | none =>
      cases hz : ce.fromZopeConf p db with
      | error e => simp [zopeSide, hz] at h
      | ok v =>
        simp [zopeSide, hz] at h
        exact ⟨p, v, rfl, rfl, hz, h.symm⟩

/-- C5: `get_incremental_start_tid` returns a null payload exactly when the
destination iterator is empty, and otherwise the 8-byte big-endian
representation of `u64(last_transaction()) + 1`. -/
theorem c5_theorem (txns : List TxnInfo) (lastT : TidVal)
    (h : tidToNat lastT + 1 < 2 ^ 64) :
    (txns = [] → get_incremental_start_tid txns lastT = .ok none) ∧
    (txns ≠ [] → ∃ bs, get_incremental_start_tid txns lastT = .ok (some bs) ∧
      bs.length = 8 ∧ u64 bs = tidToNat lastT + 1) := by
  constructor
  · intro he
    subst he
    simp [get_incremental_start_tid, storage_has_data]
  · intro hne
    have hsd : storage_has_data txns = true := by
      simp [storage_has_data, List.isEmpty_eq_true]
      exact hne
    refine ⟨[(tidToNat lastT + 1) / 2 ^ 56 % 256, (tidToNat lastT + 1) / 2 ^ 48 % 256,
             (tidToNat lastT + 1) / 2 ^ 40 % 256, (tidToNat lastT + 1) / 2 ^ 32 % 256,
             (tidToNat lastT + 1) / 2 ^ 24 % 256, (tidToNat lastT + 1) / 2 ^ 16 % 256,
             (tidToNat lastT + 1) / 2 ^ 8 % 256, (tidToNat lastT + 1) % 256], ?_, ?_, ?_⟩
    · simp only [get_incremental_start_tid, hsd, p64]
      norm_num at h ⊢
      simp [h]
    · simp
    · simp only [u64, List.foldl]
      have h' : tidToNat lastT + 1 < 2 ^ 64 := h
      norm_num at h' ⊢
      omega

theorem c5_witness :
    (([⟨5, 0, []⟩] : List TxnInfo) = [] →
      get_incremental_start_tid [⟨5, 0, []⟩] (.int 41) = .ok none) ∧
    (([⟨5, 0, []⟩] : List TxnInfo) ≠ [] →
      ∃ bs, get_incremental_start_tid [⟨5, 0, []⟩] (.int 41) = .ok (some bs) ∧
        bs.length = 8 ∧ u64 bs = tidToNat (.int 41) + 1) :=
  c5_theorem [⟨5, 0, []⟩] (.int 41) (by norm_num [tidToNat])

/-- C7, counterexample to the claim as stated: when the source lacks the
iteration capability the CLI exit code is 1, not 2. -/
theorem c7_counterexample :
    cliExitCode (copy_transactions envTriv ⟨false, true, true, true, true⟩ [] none false false) = 1 ∧
    cliExitCode (copy_transactions envTriv ⟨false, true, true, true, true⟩ [] none false false) ≠ 2 := by
  constructor
  · rfl
  · decide

/-- C7, amended: when the source storage lacks the iteration capability,
`copy_transactions` raises `ValueError` before any destination call (the
trace is empty), and the CLI maps that to exit code 1 (user/config error),
not 2. -/
theorem c7_theorem (env : Env) (caps : Caps) (src : List TxnInfo)
    (start : Option Nat) (dry prog : Bool)
    (h : caps.source_has_iterator = false) :
    copy_transactions env caps src start dry prog = .error (.valueError, initSt, []) ∧
    cliExitCode (copy_transactions env caps src start dry prog) = 1 := by
  have hc : copy_transactions env caps src start dry prog = .error (.valueError, initSt, []) := by
    simp [copy_transactions, h]
  exact ⟨hc, by rw [hc]; rfl⟩

theorem c7_witness :
    copy_transactions envTriv ⟨false, false, false, false, false⟩ [] none false false =
      .error (.valueError, initSt, []) ∧
    cliExitCode (copy_transactions envTriv ⟨false, false, false, false, false⟩ [] none false false) = 1 :=
  c7_theorem envTriv ⟨false, false, false, false, false⟩ [] none false false rfl

/-- C9: on success, `open_storages` returns non-null source and destination
storages, and `closables` holds exactly the storages opened from zope.conf
files — the source one first, then the destination one; a side resolved
from the declarative config file contributes nothing to `closables` and
came from the corresponding section of that file. -/
theorem c9_theorem (ce : ConfigEnv) (o : CliOptions) (s d : Nat) (cl : List Nat)
    (h : open_storages ce o = .ok (s, d, cl)) :
    cl = (if o.source_zope_conf.isSome then [s] else []) ++
         (if o.dest_zope_conf.isSome then [d] else []) ∧
    (∀ p, o.source_zope_conf = some p → ce.fromZopeConf p o.source_db = .ok s) ∧
    (∀ p, o.dest_zope_conf = some p → ce.fromZopeConf p o.dest_db = .ok d) ∧
    (o.source_zope_conf = none →
      ∃ p, o.config_file = some p ∧ (ce.fromConfigFile p).1 = some s) ∧
    (o.dest_zope_conf = none →
      ∃ p, o.config_file = some p ∧ (ce.fromConfigFile p).2 = some d) := by
  unfold open_storages at h
  cases hzs : zopeSide ce (cfgSource ce o.config_file) o.source_zope_conf o.source_db with
  | error e => rw [hzs] at h; exact absurd h (by simp)
  | ok res1 =>
    rw [hzs] at h
    obtain ⟨srcOpt, cls1⟩ := res1
    cases hzd : zopeSide ce (cfgDest ce o.config_file) o.dest_zope_conf o.dest_db with
    | error e => rw [hzd] at h; exact absurd h (by simp)
    | ok res2 =>
      rw [hzd] at h
      obtain ⟨dstOpt, cls2⟩ := res2
      cases srcOpt with
      | none => exact absurd h (by simp)
      | some s' =>
        cases dstOpt with
        | none => exact absurd h (by simp)
        | some d' =>
          simp only [Except.ok.injEq, Prod.mk.injEq] at h
          obtain ⟨hs, hd, hcl⟩ := h
          subst hs; subst hd; subst hcl
          have hsrcCfg : some s' = cfgSource ce o.config_file →
              ∃ p, o.config_file = some p ∧ (ce.fromConfigFile p).1 = some s' := by
            intro hcc
            cases hcf : o.config_file with
            | none => rw [hcf] at hcc; exact absurd hcc (by simp [cfgSource])
            | some p =>
              rw [hcf] at hcc
              exact ⟨p, rfl, hcc.symm⟩
          have hdstCfg : some d' = cfgDest ce o.config_file →
              ∃ p, o.config_file = some p ∧ (ce.fromConfigFile p).2 = some d' := by
            intro hcc
            cases hcf : o.config_file with
            | none => rw [hcf] at hcc; exact absurd hcc (by simp [cfgDest])
            | some p =>
              rw [hcf] at hcc
              exact ⟨p, rfl, hcc.symm⟩
          rcases zopeSide_ok ce _ o.source_zope_conf o.source_db _ hzs with
            ⟨hconf1, hres1⟩ | ⟨p, v, hconf1, hcur1, hzc1, hres1⟩ <;>
          rcases zopeSide_ok ce _ o.dest_zope_conf o.dest_db _ hzd with
            ⟨hconf2, hres2⟩ | ⟨q, w, hconf2, hcur2, hzc2, hres2⟩ <;>
          simp only [Prod.mk.injEq] at hres1 hres2
          · refine ⟨?_, ?_, ?_, ?_, ?_⟩
            · simp [hconf1, hconf2, hres1.2, hres2.2]
            · intro p hp; rw [hconf1] at hp; exact absurd hp (by simp)
            · intro p hp; rw [hconf2] at hp; exact absurd hp (by simp)
            · intro _; exact hsrcCfg hres1.1
            · intro _; exact hdstCfg hres2.1
          · obtain ⟨hw, hcls2⟩ := hres2
            obtain ⟨hs1, hcls1⟩ := hres1
            cases hw
            refine ⟨?_, ?_, ?_, ?_, ?_⟩
            · simp [hconf1, hconf2, hcls1, hcls2]
            · intro p hp; rw [hconf1] at hp; exact absurd hp (by simp)
            · intro p hp
              rw [hconf2] at hp
              cases hp
              exact hzc2
            · intro _; exact hsrcCfg hs1
            · intro hd2; rw [hconf2] at hd2; exact absurd hd2 (by simp)
          · obtain ⟨hv, hcls1⟩ := hres1
            obtain ⟨hd1, hcls2⟩ := hres2
            cases hv
            refine ⟨?_, ?_, ?_, ?_, ?_⟩
            · simp [hconf1, hconf2, hcls1, hcls2]
            · intro p hp
              rw [hconf1] at hp
              cases hp
              exact hzc1
            · intro p hp; rw [hconf2] at hp; exact absurd hp (by simp)
            · intro hs2; rw [hconf1] at hs2; exact absurd hs2 (by simp)
            · intro _; exact hdstCfg hd1
          · obtain ⟨hv, hcls1⟩ := hres1
            obtain ⟨hw, hcls2⟩ := hres2
            cases hv; cases hw
            refine ⟨?_, ?_, ?_, ?_, ?_⟩
            · simp [hconf1, hconf2, hcls1, hcls2]
            · intro p hp
              rw [hconf1] at hp
              cases hp
              exact hzc1
            · intro p hp
              rw [hconf2] at hp
              cases hp
              exact hzc2
            · intro hs2; rw [hconf1] at hs2; exact absurd hs2 (by simp)
            · intro hd2; rw [hconf2] at hd2; exact absurd hd2 (by simp)

/-- A concrete config environment: the config file at path 0 yields a source
section only; zope.conf path 1 opens storage 20. -/
def ceW : ConfigEnv :=
  { fromConfigFile := fun p => if p = 0 then (some 10, none) else (none, none),
    fromZopeConf := fun p db => if p = 1 && db = 3 then .ok 20 else .error .valueError }

theorem c9_witness :
    [20] = (if (none : Option Nat).isSome then [10] else []) ++
           (if (some 1 : Option Nat).isSome then [20] else []) ∧
    (∀ p, (none : Option Nat) = some p → ceW.fromZopeConf p 2 = .ok 10) ∧
    (∀ p, (some 1 : Option Nat) = some p → ceW.fromZopeConf p 3 = .ok 20) ∧
    ((none : Option Nat) = none →
      ∃ p, (some 0 : Option Nat) = some p ∧ (ceW.fromConfigFile p).1 = some 10) ∧
    ((some 1 : Option Nat) = none →
      ∃ p, (some 0 : Option Nat) = some p ∧ (ceW.fromConfigFile p).2 = some 20) :=
  c9_theorem ceW ⟨some 0, none, some 1, 2, 3⟩ 10 20 [20] rfl

lemma destCall_ok_inv (env : Env) (st : St) (e : Ev) (st' : St) (evW : List Ev)
    (h : destCall env st e = .ok (st', evW)) :
    evW = [e] ∧ st' = { st with dcalls := st.dcalls + 1 } := by
  unfold destCall at h
  split at h
  · exact absurd h (by simp)
  · simp only [Except.ok.injEq, Prod.mk.injEq] at h
    exact ⟨h.2.symm, h.1.symm⟩

lemma destCall_err_inv (env : Env) (st : St) (e : Ev) (ex : PyExc) (st' : St)
    (evW : List Ev) (h : destCall env st e = .error (ex, st', evW)) :
    evW = [e] ∧ ex = .generic ∧ st' = { st with dcalls := st.dcalls + 1 } := by
  unfold destCall at h
  split at h
  · simp only [Except.error.injEq, Prod.mk.injEq] at h
    exact ⟨h.2.2.symm, h.1.symm, h.2.1.symm⟩
  · exact absurd h (by simp)

lemma processRecord_plainR (env : Env) (caps : Caps) (tid : Nat) (r : Record) (st : St)
    (evC : List Ev) (hc : classify env caps r = (none, evC))
    (hr : caps.dest_has_restore = true) :
    processRecord env caps tid r st =
      match destCall env st (Ev.restoreRec r.oid r.tid r.data r.data_txn) with
      | .error (e, st', evW) => .error (e, st', evC ++ evW)
      | .ok (st', evW) =>
        .ok ({ st' with obj_count := st'.obj_count + 1 }, evC ++ evW, dataLen r.data, 0) := by
  unfold processRecord
  rw [hc]
  simp [hr]

lemma processRecord_plainS (env : Env) (caps : Caps) (tid : Nat) (r : Record) (st : St)
    (evC : List Ev) (hc : classify env caps r = (none, evC))
    (hr : caps.dest_has_restore = false) :
    processRecord env caps tid r st =
      match destCall env st (Ev.storeRec r.oid (st.preindex r.oid) r.data) with
      | .error (e, st', evW) => .error (e, st', evC ++ evW)
      | .ok (st', evW) =>
        .ok ({ st' with obj_count := st'.obj_count + 1,
                        preindex := fun o => if o = r.oid then some tid else st'.preindex o },
             evC ++ evW, dataLen r.data, 0) := by
  unfold processRecord
  rw [hc]
  simp [hr]

/-- C10: a record whose `data` is `None` or empty is never classified
(`is_blob_record` and `loadBlob` are not invoked: no classification events
at all), is written through the plain `restore`/`store` path with its
`data` value passed through unchanged, and contributes zero bytes and zero
blobs to the transaction accounting. -/
theorem c10_theorem (env : Env) (caps : Caps) (tid : Nat) (r : Record) (st : St)
    (h : r.data = none ∨ r.data = some []) :
    classify env caps r = (none, []) ∧
    (∀ st' Δ db dbl, processRecord env caps tid r st = .ok (st', Δ, db, dbl) →
       db = 0 ∧ dbl = 0 ∧
       Δ = [if caps.dest_has_restore = true then Ev.restoreRec r.oid r.tid r.data r.data_txn
            else Ev.storeRec r.oid (st.preindex r.oid) r.data]) ∧
    (∀ e st' Δ, processRecord env caps tid r st = .error (e, st', Δ) →
       Δ = [if caps.dest_has_restore = true then Ev.restoreRec r.oid r.tid r.data r.data_txn
            else Ev.storeRec r.oid (st.preindex r.oid) r.data]) := by
  have hcl : classify env caps r = (none, []) := by
    rcases h with h | h <;> simp [classify, h]
  have hdl : dataLen r.data = 0 := by
    rcases h with h | h <;> simp [dataLen, h]
  refine ⟨hcl, ?_, ?_⟩
  · intro st' Δ db dbl hpr
    cases hr : caps.dest_has_restore with
    | true =>
      rw [processRecord_plainR env caps tid r st [] hcl hr] at hpr
      cases hdc : destCall env st (Ev.restoreRec r.oid r.tid r.data r.data_txn) with
      | error tri => rw [hdc] at hpr; exact absurd hpr (by simp)
      | ok pr =>
        obtain ⟨st3, evW⟩ := pr
        rw [hdc] at hpr
        obtain ⟨hev, -⟩ := destCall_ok_inv env st _ st3 evW hdc
        simp only [Except.ok.injEq, Prod.mk.injEq] at hpr
        exact ⟨hpr.2.2.1.symm.trans hdl, hpr.2.2.2.symm, by simp [hr, ← hpr.2.1, hev]⟩
    | false =>
      rw [processRecord_plainS env caps tid r st [] hcl hr] at hpr
      cases hdc : destCall env st (Ev.storeRec r.oid (st.preindex r.oid) r.data) with
      | error tri => rw [hdc] at hpr; exact absurd hpr (by simp)
      | ok pr =>
        obtain ⟨st3, evW⟩ := pr
        rw [hdc] at hpr
        obtain ⟨hev, -⟩ := destCall_ok_inv env st _ st3 evW hdc
        simp only [Except.ok.injEq, Prod.mk.injEq] at hpr
        exact ⟨hpr.2.2.1.symm.trans hdl, hpr.2.2.2.symm, by simp [hr, ← hpr.2.1, hev]⟩
  · intro e st' Δ hpr
    cases hr : caps.dest_has_restore with
    | true =>
      rw [processRecord_plainR env caps tid r st [] hcl hr] at hpr
      cases hdc : destCall env st (Ev.restoreRec r.oid r.tid r.data r.data_txn) with
      | ok pr => rw [hdc] at hpr; obtain ⟨st3, evW⟩ := pr; exact absurd hpr (by simp)
      | error tri =>
        obtain ⟨e', st3, evW⟩ := tri
        rw [hdc] at hpr
        obtain ⟨hev, -, -⟩ := destCall_err_inv env st _ e' st3 evW hdc
        simp only [Except.error.injEq, Prod.mk.injEq] at hpr
        simp [hr, ← hpr.2.2, hev]
    | false =>
      rw [processRecord_plainS env caps tid r st [] hcl hr] at hpr
      cases hdc : destCall env st (Ev.storeRec r.oid (st.preindex r.oid) r.data) with
      | ok pr => rw [hdc] at hpr; obtain ⟨st3, evW⟩ := pr; exact absurd hpr (by simp)
      | error tri =>
        obtain ⟨e', st3, evW⟩ := tri
        rw [hdc] at hpr
        obtain ⟨hev, -, -⟩ := destCall_err_inv env st _ e' st3 evW hdc
        simp only [Except.error.injEq, Prod.mk.injEq] at hpr
        simp [hr, ← hpr.2.2, hev]

theorem c10_witness :
    classify envTriv ⟨true, true, true, true, true⟩ ⟨1, 2, some [], none⟩ = (none, []) ∧
    (∀ st' Δ db dbl,
       processRecord envTriv ⟨true, true, true, true, true⟩ 2 ⟨1, 2, some [], none⟩ initSt =
         .ok (st', Δ, db, dbl) →
       db = 0 ∧ dbl = 0 ∧
       Δ = [if (⟨true, true, true, true, true⟩ : Caps).dest_has_restore = true then
              Ev.restoreRec 1 2 (some []) none
            else Ev.storeRec 1 (initSt.preindex 1) (some [])]) ∧
    (∀ e st' Δ,
       processRecord envTriv ⟨true, true, true, true, true⟩ 2 ⟨1, 2, some [], none⟩ initSt =
         .error (e, st', Δ) →
       Δ = [if (⟨true, true, true, true, true⟩ : Caps).dest_has_restore = true then
              Ev.restoreRec 1 2 (some []) none
            else Ev.storeRec 1 (initSt.preindex 1) (some [])]) :=
  c10_theorem envTriv ⟨true, true, true, true, true⟩ 2 ⟨1, 2, some [], none⟩ initSt (Or.inr rfl)

/-- The events emitted by one record processing, normal or raising. -/
def recTrace : Except (PyExc × St × List Ev) (St × List Ev × Nat × Nat) → List Ev
  | .ok (_, Δ, _, _) => Δ
  | .error (_, _, Δ) => Δ

/-- Events that treat a record as a blob: the `loadBlob` attempt, staging,
and the two blob write operations. -/
def isBlobTreatEv : Ev → Bool
  | .loadBlobCall _ _ => true
  | .mkstemp _ => true
  | .copyBlob _ _ => true
  | .restoreBlob _ _ _ _ _ => true
  | .storeBlob _ _ _ _ => true
  | _ => false

lemma recTrace_plain (env : Env) (caps : Caps) (tid : Nat) (r : Record) (st : St)
    (evC : List Ev) (hc : classify env caps r = (none, evC)) :
    recTrace (processRecord env caps tid r st) =
      evC ++ [if caps.dest_has_restore = true then Ev.restoreRec r.oid r.tid r.data r.data_txn
              else Ev.storeRec r.oid (st.preindex r.oid) r.data] := by
  cases hr : caps.dest_has_restore with
  | true =>
    rw [processRecord_plainR env caps tid r st evC hc hr]
    cases hdc : destCall env st (Ev.restoreRec r.oid r.tid r.data r.data_txn) with
    | ok pr =>
      obtain ⟨st3, evW⟩ := pr
      obtain ⟨hev, -⟩ := destCall_ok_inv env st _ st3 evW hdc
      simp [recTrace, hev]
    | error tri =>
      obtain ⟨e', st3, evW⟩ := tri
      obtain ⟨hev, -, -⟩ := destCall_err_inv env st _ e' st3 evW hdc
      simp [recTrace, hev]
  | false =>
    rw [processRecord_plainS env caps tid r st evC hc hr]
    cases hdc : destCall env st (Ev.storeRec r.oid (st.preindex r.oid) r.data) with
    | ok pr =>
      obtain ⟨st3, evW⟩ := pr
      obtain ⟨hev, -⟩ := destCall_ok_inv env st _ st3 evW hdc
      simp [recTrace, hev]
    | error tri =>
      obtain ⟨e', st3, evW⟩ := tri
      obtain ⟨hev, -, -⟩ := destCall_err_inv env st _ e' st3 evW hdc
      simp [recTrace, hev]

/-- C6: (1) a record is treated as a blob (a `loadBlob` attempt, staging, or
a blob write occurs for it) only when its data is truthy, the source and
the destination both have blob capability, and `is_blob_record(data)`
holds; (2) when those conditions hold but the source's `loadBlob` raises,
the engine logs a warning and writes the record through the plain
`restore`/`store` path — no staging file, no blob write, the copy not
failed by the blob load. -/
theorem c6_theorem (env : Env) (caps : Caps) (tid : Nat) (r : Record) (st : St) :
    (∀ e ∈ recTrace (processRecord env caps tid r st), isBlobTreatEv e = true →
       dataTruthy r.data = true ∧ caps.source_has_blobs = true ∧
       caps.dest_has_blobs = true ∧ ∃ d, r.data = some d ∧ env.is_blob_record d = true) ∧
    (∀ d, r.data = some d → d.isEmpty = false → caps.source_has_blobs = true →
       caps.dest_has_blobs = true → env.is_blob_record d = true →
       env.loadBlob r.oid r.tid = none →
       classify env caps r =
         (none, [Ev.blobCheck d, Ev.loadBlobCall r.oid r.tid, Ev.blobWarn r.oid r.tid]) ∧
       recTrace (processRecord env caps tid r st) =
         [Ev.blobCheck d, Ev.loadBlobCall r.oid r.tid, Ev.blobWarn r.oid r.tid] ++
         [if caps.dest_has_restore = true then Ev.restoreRec r.oid r.tid r.data r.data_txn
          else Ev.storeRec r.oid (st.preindex r.oid) r.data]) := by
  constructor
  · cases hd : r.data with
    | none =>
      have hc : classify env caps r = (none, []) := by simp [classify, hd]
      rw [recTrace_plain env caps tid r st [] hc]
      intro e he hbt
      simp only [List.nil_append, List.mem_singleton] at he
      subst he
      cases hr : caps.dest_has_restore <;> simp [hr, isBlobTreatEv] at hbt
    | some d =>
      by_cases hde : d.isEmpty
      · have hc : classify env caps r = (none, []) := by simp [classify, hd, hde]
        rw [recTrace_plain env caps tid r st [] hc]
        intro e he hbt
        simp only [List.nil_append, List.mem_singleton] at he
        subst he
        cases hr : caps.dest_has_restore <;> simp [hr, isBlobTreatEv] at hbt
      · by_cases hfl : (caps.source_has_blobs && caps.dest_has_blobs) = true
        · by_cases hib : env.is_blob_record d = true
          · intro e he hbt
            refine ⟨by simp [dataTruthy, hde], ?_, ?_, d, rfl, hib⟩
            · exact (Bool.and_eq_true _ _ |>.mp hfl).1
            · exact (Bool.and_eq_true _ _ |>.mp hfl).2
          · have hc : classify env caps r = (none, [Ev.blobCheck d]) := by
              simp [classify, hd, hde, hfl, hib]
            rw [recTrace_plain env caps tid r st [Ev.blobCheck d] hc]
            intro e he hbt
            rcases List.mem_append.mp he with heC | heP
            · rw [List.mem_singleton] at heC
              subst heC
              simp [isBlobTreatEv] at hbt
            · rw [List.mem_singleton] at heP
              subst heP
              cases hr : caps.dest_has_restore <;> simp [hr, isBlobTreatEv] at hbt
        · have hc : classify env caps r = (none, []) := by
            simp [classify, hd, hde, hfl]
          rw [recTrace_plain env caps tid r st [] hc]
          intro e he hbt
          simp only [List.nil_append, List.mem_singleton] at he
          subst he
          cases hr : caps.dest_has_restore <;> simp [hr, isBlobTreatEv] at hbt
  · intro d hd hde hsb hdb hib hlb
    have hc : classify env caps r =
        (none, [Ev.blobCheck d, Ev.loadBlobCall r.oid r.tid, Ev.blobWarn r.oid r.tid]) := by
      simp [classify, hd, hde, hsb, hdb, hib, hlb]
    exact ⟨hc, recTrace_plain env caps tid r st _ hc⟩

lemma destCall_ok (env : Env) (st : St) (e : Ev) (hOk : env.dest_fail_at = none) :
    destCall env st e = .ok ({ st with dcalls := st.dcalls + 1 }, [e]) := by
  simp [destCall, hOk]

lemma processRecord_ok (env : Env) (caps : Caps) (tid : Nat) (r : Record) (st : St)
    (hOk : env.dest_fail_at = none) (hCopy : ∀ p, env.copy2_ok p = true) :
    ∃ st' Δ db dbl, processRecord env caps tid r st = .ok (st', Δ, db, dbl) ∧
      st'.txn_count = st.txn_count := by
  rcases hc : classify env caps r with ⟨bf, evC⟩
  unfold processRecord
  rw [hc]
  cases bf with
  | some sp =>
    cases hbr : caps.dest_has_blob_restore with
    | true =>
      simp only [hCopy, hbr, if_true, destCall_ok env _ _ hOk]
      exact ⟨_, _, _, _, rfl, rfl⟩
    | false =>
      simp only [hCopy, hbr, if_true, Bool.false_eq_true, if_false,
        destCall_ok env _ _ hOk]
      exact ⟨_, _, _, _, rfl, rfl⟩
  | none =>
    cases hr : caps.dest_has_restore with
    | true =>
      simp only [hr, if_true, destCall_ok env _ _ hOk]
      exact ⟨_, _, _, _, rfl, rfl⟩
    | false =>
      simp only [hr, Bool.false_eq_true, if_false, destCall_ok env _ _ hOk]
      exact ⟨_, _, _, _, rfl, rfl⟩

lemma processRecords_ok (env : Env) (caps : Caps) (tid : Nat)
    (hOk : env.dest_fail_at = none) (hCopy : ∀ p, env.copy2_ok p = true)
    (rs : List Record) :
    ∀ (st : St) (tb tbl : Nat),
      ∃ st' Δ tb' tbl', processRecords env caps tid rs st tb tbl = .ok (st', Δ, tb', tbl') ∧
        st'.txn_count = st.txn_count := by
  induction rs with
  | nil =>
    intro st tb tbl
    exact ⟨st, [], tb, tbl, rfl, rfl⟩
  | cons r rs ih =>
    intro st tb tbl
    obtain ⟨st1, Δ1, db, dbl, h1, ht1⟩ := processRecord_ok env caps tid r st hOk hCopy
    obtain ⟨st2, Δ2, tb', tbl', h2, ht2⟩ := ih st1 (tb + db) (tbl + dbl)
    refine ⟨st2, Δ1 ++ Δ2, tb', tbl', ?_, ht2.trans ht1⟩
    simp only [processRecords, h1, h2]

lemma processTxn_ok (env : Env) (caps : Caps) (prog : Bool) (t : TxnInfo) (st : St)
    (hOk : env.dest_fail_at = none) (hCopy : ∀ p, env.copy2_ok p = true) :
    ∃ st' Δ, processTxn env caps false prog t st = .ok (st', Δ) ∧
      st'.txn_count = st.txn_count + 1 := by
  obtain ⟨st2, Δ2, tb, tbl, h2, ht2⟩ :=
    processRecords_ok env caps t.tid hOk hCopy t.records
      { st with dcalls := st.dcalls + 1 } 0 0
  unfold processTxn
  simp only [Bool.false_eq_true, if_false, destCall_ok env _ _ hOk, h2]
  cases hr : caps.dest_has_restore with
  | true =>
    simp only [hr, if_true]
    exact ⟨_, _, rfl, by simp [ht2]⟩
  | false =>
    simp only [hr, Bool.false_eq_true, if_false]
    cases hf : env.finish_tid t.tid with
    | some c => exact ⟨_, _, rfl, by simp [ht2]⟩
    | none => exact ⟨_, _, rfl, by simp [ht2]⟩

lemma runTxns_ok (env : Env) (caps : Caps) (prog : Bool)
    (hOk : env.dest_fail_at = none) (hCopy : ∀ p, env.copy2_ok p = true)
    (ts : List TxnInfo) :
    ∀ st : St, ∃ st' Δ, runTxns env caps false prog ts st = .ok (st', Δ) ∧
      st'.txn_count = st.txn_count + ts.length := by
  induction ts with
  | nil => intro st; exact ⟨st, [], rfl, rfl⟩
  | cons t ts ih =>
    intro st
    obtain ⟨st1, Δ1, h1, ht1⟩ := processTxn_ok env caps prog t st hOk hCopy
    obtain ⟨st2, Δ2, h2, ht2⟩ := ih st1
    have hlen : (t :: ts).length = ts.length + 1 := by simp
    refine ⟨st2, Δ1 ++ Δ2, ?_, by rw [hlen]; omega⟩
    simp only [runTxns, h1, h2]

lemma runTxns_dry (env : Env) (caps : Caps) (prog : Bool) (ts : List TxnInfo) :
    ∀ st : St, runTxns env caps true prog ts st =
      .ok ({ st with txn_count := st.txn_count + ts.length,
                     obj_count := st.obj_count + sumRecs ts },
           if prog then ts.map (fun t => Ev.progressEv t.tid t.records.length 0 0)
           else []) := by
  induction ts with
  | nil =>
    intro st
    simp [runTxns, sumRecs]
  | cons t ts ih =>
    intro st
    rw [runTxns, processTxn]
    simp only [if_true]
    rw [ih]
    have hst : ({ { st with
        obj_count := st.obj_count + t.records.length,
        txn_count := st.txn_count + 1 } with
        txn_count := st.txn_count + 1 + ts.length,
        obj_count := st.obj_count + t.records.length + sumRecs ts } : St) =
      { st with txn_count := st.txn_count + (t :: ts).length,
                obj_count := st.obj_count + sumRecs (t :: ts) } := by
      simp [sumRecs, List.length_cons]
      constructor <;> omega
    rw [hst]
    cases prog <;> simp

lemma progressEvents_dryMap (ts : List TxnInfo) :
    progressEvents ((ts.map fun t => Ev.progressEv t.tid t.records.length 0 0) ++
        [Ev.iterClose]) =
      ts.map fun t => (t.tid, t.records.length, 0, 0) := by
  induction ts with
  | nil => simp [progressEvents]
  | cons t ts ih => simp [progressEvents, ih]

lemma dryTrace_no_destOp (ts : List TxnInfo) :
    ∀ e ∈ (ts.map fun t => Ev.progressEv t.tid t.records.length 0 0) ++ [Ev.iterClose],
      isDestOp e = false := by
  intro e he
  rcases List.mem_append.mp he with hm | hs
  · obtain ⟨t, -, ht⟩ := List.mem_map.mp hm
    rw [← ht]
    rfl
  · rw [List.mem_singleton] at hs
    subst hs
    rfl

/-- C8: a dry run makes no call at all on the destination storage — its
whole trace is one progress notification per source transaction, with the
tuple `(tid, record count of the transaction, 0, 0)`, followed by the
iterator close — it returns `txn_count` equal to the number of iterated
transactions, and that equals the `txn_count` a real (non-failing) run over
the same source commits. -/
theorem c8_theorem (env : Env) (caps : Caps) (src : List TxnInfo) (start : Option Nat)
    (hit : caps.source_has_iterator = true)
    (hOk : env.dest_fail_at = none) (hCopy : ∀ p, env.copy2_ok p = true) :
    copy_transactions env caps src start true true =
      .ok ({ initSt with txn_count := (iterFrom src start).length,
                         obj_count := sumRecs (iterFrom src start) },
           ((iterFrom src start).map fun t => Ev.progressEv t.tid t.records.length 0 0) ++
             [Ev.iterClose]) ∧
    (∀ e ∈ excTrace (copy_transactions env caps src start true true), isDestOp e = false) ∧
    progressEvents (excTrace (copy_transactions env caps src start true true)) =
      (iterFrom src start).map (fun t => (t.tid, t.records.length, 0, 0)) ∧
    excOk (copy_transactions env caps src start false true) = true ∧
    (excState (copy_transactions env caps src start false true)).txn_count =
      (excState (copy_transactions env caps src start true true)).txn_count := by
  have hA : ({ initSt with
      txn_count := initSt.txn_count + (iterFrom src start).length,
      obj_count := initSt.obj_count + sumRecs (iterFrom src start) } : St) =
      { initSt with txn_count := (iterFrom src start).length,
                    obj_count := sumRecs (iterFrom src start) } := by
    simp [initSt]
  have hcall : copy_transactions env caps src start true true =
      .ok ({ initSt with txn_count := (iterFrom src start).length,
                         obj_count := sumRecs (iterFrom src start) },
           ((iterFrom src start).map fun t => Ev.progressEv t.tid t.records.length 0 0) ++
             [Ev.iterClose]) := by
    unfold copy_transactions
    rw [hit]
    simp only [Bool.true_eq_false, if_false]
    rw [runTxns_dry env caps true (iterFrom src start) initSt]
    simp only [if_true, hA]
    simp [finallyEvs, initSt]
  refine ⟨hcall, ?_, ?_, ?_, ?_⟩
  · rw [hcall]
    exact dryTrace_no_destOp (iterFrom src start)
  · rw [hcall]
    exact progressEvents_dryMap (iterFrom src start)
  · obtain ⟨st', Δ, hrun, -⟩ :=
      runTxns_ok env caps true hOk hCopy (iterFrom src start) initSt
    unfold copy_transactions
    rw [hit]
    simp only [Bool.true_eq_false, if_false]
    rw [hrun]
    rfl
  · obtain ⟨st', Δ, hrun, hcnt⟩ :=
      runTxns_ok env caps true hOk hCopy (iterFrom src start) initSt
    rw [hcall]
    unfold copy_transactions
    rw [hit]
    simp only [Bool.true_eq_false, if_false]
    rw [hrun]
    simp only [excState]
    rw [hcnt]
    simp [initSt]

theorem c8_witness :
    copy_transactions envTriv ⟨true, false, true, false, false⟩
        [⟨1, 0, [⟨10, 1, some [7], none⟩]⟩] none true true =
      .ok ({ initSt with
              txn_count := (iterFrom [⟨1, 0, [⟨10, 1, some [7], none⟩]⟩] none).length,
              obj_count := sumRecs (iterFrom [⟨1, 0, [⟨10, 1, some [7], none⟩]⟩] none) },
           ((iterFrom [⟨1, 0, [⟨10, 1, some [7], none⟩]⟩] none).map
               fun t => Ev.progressEv t.tid t.records.length 0 0) ++ [Ev.iterClose]) ∧
    (∀ e ∈ excTrace (copy_transactions envTriv ⟨true, false, true, false, false⟩
        [⟨1, 0, [⟨10, 1, some [7], none⟩]⟩] none true true), isDestOp e = false) ∧
    progressEvents (excTrace (copy_transactions envTriv ⟨true, false, true, false, false⟩
        [⟨1, 0, [⟨10, 1, some [7], none⟩]⟩] none true true)) =
      (iterFrom [⟨1, 0, [⟨10, 1, some [7], none⟩]⟩] none).map
        (fun t => (t.tid, t.records.length, 0, 0)) ∧
    excOk (copy_transactions envTriv ⟨true, false, true, false, false⟩
        [⟨1, 0, [⟨10, 1, some [7], none⟩]⟩] none false true) = true ∧
    (excState (copy_transactions envTriv ⟨true, false, true, false, false⟩
        [⟨1, 0, [⟨10, 1, some [7], none⟩]⟩] none false true)).txn_count =
      (excState (copy_transactions envTriv ⟨true, false, true, false, false⟩
        [⟨1, 0, [⟨10, 1, some [7], none⟩]⟩] none true true)).txn_count :=
  c8_theorem envTriv ⟨true, false, true, false, false⟩
    [⟨1, 0, [⟨10, 1, some [7], none⟩]⟩] none rfl rfl (fun _ => rfl)

/-- C2, evaluation at the failing input: over a source of two transactions
with one record each, the engine's second progress notification carries
record_count 2 — the engine's cumulative `obj_count` — although the second
transaction has a single record; the reporter, which accumulates the
argument as a per-transaction delta, ends with `obj_count` 3 for a source
of 2 records, while the dry run over the same source notifies the correct
per-transaction delta 1. -/
theorem c2_code_evaluation :
    progressEvents (excTrace (copy_transactions envTriv ⟨true, false, true, false, false⟩
        [⟨1, 0, [⟨10, 1, some [7], none⟩]⟩, ⟨2, 0, [⟨10, 2, some [8], none⟩]⟩]
        none false true)) = [(1, 1, 1, 0), (2, 2, 1, 0)] ∧
    (Reporter.init.feed (progressEvents (excTrace
        (copy_transactions envTriv ⟨true, false, true, false, false⟩
          [⟨1, 0, [⟨10, 1, some [7], none⟩]⟩, ⟨2, 0, [⟨10, 2, some [8], none⟩]⟩]
          none false true)))).obj_count = 3 ∧
    sumRecs [⟨1, 0, [⟨10, 1, some [7], none⟩]⟩, ⟨2, 0, [⟨10, 2, some [8], none⟩]⟩] = 2 ∧
    progressEvents (excTrace (copy_transactions envTriv ⟨true, false, true, false, false⟩
        [⟨1, 0, [⟨10, 1, some [7], none⟩]⟩, ⟨2, 0, [⟨10, 2, some [8], none⟩]⟩]
        none true true)) = [(1, 1, 0, 0), (2, 1, 0, 0)] := by
  refine ⟨?_, ?_, ?_, ?_⟩ <;> rfl

/-- An environment whose source recognises `[9]` as a blob record but whose
`loadBlob` always raises. -/
def envBlobFail : Env :=
  { is_blob_record := fun d => decide (d = [9]), loadBlob := fun _ _ => none,
    blobSize := fun _ => 0, copy2_ok := fun _ => true,
    dest_fail_at := none, finish_tid := fun _ => some 0 }

theorem c6_witness :
    classify envBlobFail ⟨true, true, true, true, true⟩ ⟨3, 4, some [9], none⟩ =
      (none, [Ev.blobCheck [9], Ev.loadBlobCall 3 4, Ev.blobWarn 3 4]) ∧
    recTrace (processRecord envBlobFail ⟨true, true, true, true, true⟩ 5
        ⟨3, 4, some [9], none⟩ initSt) =
      [Ev.blobCheck [9], Ev.loadBlobCall 3 4, Ev.blobWarn 3 4] ++
      [if (⟨true, true, true, true, true⟩ : Caps).dest_has_restore = true then
         Ev.restoreRec 3 4 (some [9]) none
       else Ev.storeRec 3 (initSt.preindex 3) (some [9])] :=
  (c6_theorem envBlobFail ⟨true, true, true, true, true⟩ 5 ⟨3, 4, some [9], none⟩ initSt).2
    [9] rfl (by decide) rfl rfl (by decide) rfl

lemma classify_events (env : Env) (caps : Caps) (r : Record) :
    ∀ e ∈ (classify env caps r).2,
      (∃ d, e = Ev.blobCheck d) ∨ (∃ o t, e = Ev.loadBlobCall o t) ∨
      (∃ o t, e = Ev.blobWarn o t) := by
  intro e he
  cases hd : r.data with
  | none => rw [show classify env caps r = (none, []) by simp [classify, hd]] at he; simp at he
  | some d =>
    by_cases hde : d.isEmpty
    · rw [show classify env caps r = (none, []) by simp [classify, hd, hde]] at he
      simp at he
    · by_cases hfl : (caps.source_has_blobs && caps.dest_has_blobs) = true
      · by_cases hib : env.is_blob_record d = true
        · cases hlb : env.loadBlob r.oid r.tid with
          | some sp =>
            rw [show classify env caps r =
                (some sp, [Ev.blobCheck d, Ev.loadBlobCall r.oid r.tid]) by
              simp [classify, hd, hde, hfl, hib, hlb]] at he
            simp only [List.mem_cons, List.mem_singleton, List.not_mem_nil, or_false] at he
            rcases he with he | he
            · exact Or.inl ⟨d, he⟩
            · exact Or.inr (Or.inl ⟨r.oid, r.tid, he⟩)
          | none =>
            rw [show classify env caps r =
                (none, [Ev.blobCheck d, Ev.loadBlobCall r.oid r.tid,
                        Ev.blobWarn r.oid r.tid]) by
              simp [classify, hd, hde, hfl, hib, hlb]] at he
            simp only [List.mem_cons, List.not_mem_nil, or_false] at he
            rcases he with he | he | he
            · exact Or.inl ⟨d, he⟩
            · exact Or.inr (Or.inl ⟨r.oid, r.tid, he⟩)
            · exact Or.inr (Or.inr ⟨r.oid, r.tid, he⟩)
        · rw [show classify env caps r = (none, [Ev.blobCheck d]) by
            simp [classify, hd, hde, hfl, hib]] at he
          simp only [List.mem_singleton] at he
          exact Or.inl ⟨d, he⟩
      · rw [show classify env caps r = (none, []) by simp [classify, hd, hde, hfl]] at he
        simp at he

lemma processRecord_spec (env : Env) (caps : Caps) (tid : Nat) (r : Record) (st : St) :
    (∀ st' Δ db dbl, processRecord env caps tid r st = .ok (st', Δ, db, dbl) →
       (∀ q ∈ st.temp_blobs, q ∈ st'.temp_blobs) ∧
       (∀ s p, Ev.copyBlob s p ∈ Δ → p ∈ st'.temp_blobs) ∧
       (∀ e ∈ Δ, isAbortEv e = false)) ∧
    (∀ ex st' Δ, processRecord env caps tid r st = .error (ex, st', Δ) →
       (∀ q ∈ st.temp_blobs, q ∈ st'.temp_blobs) ∧
       (∀ s p, Ev.copyBlob s p ∈ Δ → p ∈ st'.temp_blobs) ∧
       (∀ e ∈ Δ, isAbortEv e = false)) := by
  have hEvC := classify_events env caps r
  rcases hc : classify env caps r with ⟨bf, evC⟩
  rw [hc] at hEvC
  have hCnoAb : ∀ e ∈ evC, isAbortEv e = false := by
    intro e he
    rcases hEvC e he with ⟨d, rfl⟩ | ⟨o, t, rfl⟩ | ⟨o, t, rfl⟩ <;> rfl
  have hCnoCp : ∀ s p, Ev.copyBlob s p ∉ evC := by
    intro s p hmem
    rcases hEvC _ hmem with ⟨d, h⟩ | ⟨o, t, h⟩ | ⟨o, t, h⟩ <;> simp at h
  have hMemBlob : ∀ (sp : Nat) (st1 : St) (EV : Ev) (evW : List Ev),
      evW = [EV] → isAbortEv EV = false → (∀ s p, EV ≠ Ev.copyBlob s p) →
      st.next_path ∈ st1.temp_blobs →
      (∀ s p, Ev.copyBlob s p ∈
          evC ++ [Ev.mkstemp st.next_path, Ev.copyBlob sp st.next_path] ++ evW →
        p ∈ st1.temp_blobs) ∧
      (∀ e ∈ evC ++ [Ev.mkstemp st.next_path, Ev.copyBlob sp st.next_path] ++ evW,
        isAbortEv e = false) := by
    intro sp st1 EV evW hev hab hncp hmem
    subst hev
    constructor
    · intro s p hp
      rcases List.mem_append.mp hp with hp | hp
      · rcases List.mem_append.mp hp with hp | hp
        · exact absurd hp (hCnoCp s p)
        · rcases List.mem_cons.mp hp with hp' | hp'
          · exact absurd hp' (by simp)
          · rw [List.mem_singleton] at hp'
            injection hp' with h1 h2
            rw [h2]
            exact hmem
      · rw [List.mem_singleton] at hp
        exact absurd hp.symm (hncp s p)
    · intro e he
      rcases List.mem_append.mp he with he | he
      · rcases List.mem_append.mp he with he | he
        · exact hCnoAb e he
        · rcases List.mem_cons.mp he with he' | he'
          · subst he'; rfl
          · rw [List.mem_singleton] at he'; subst he'; rfl
      · rw [List.mem_singleton] at he; subst he; exact hab
  have hMemPlain : ∀ (EV : Ev) (evW : List Ev),
      evW = [EV] → isAbortEv EV = false → (∀ s p, EV ≠ Ev.copyBlob s p) →
      (∀ s p, Ev.copyBlob s p ∈ evC ++ evW → False) ∧
      (∀ e ∈ evC ++ evW, isAbortEv e = false) := by
    intro EV evW hev hab hncp
    subst hev
    constructor
    · intro s p hp
      rcases List.mem_append.mp hp with hp | hp
      · exact hCnoCp s p hp
      · rw [List.mem_singleton] at hp
        exact absurd hp.symm (hncp s p)
    · intro e he
      rcases List.mem_append.mp he with he | he
      · exact hCnoAb e he
      · rw [List.mem_singleton] at he; subst he; exact hab
  constructor
  · intro st' Δ db dbl heq
    unfold processRecord at heq
    rw [hc] at heq
    cases bf with
    | some sp =>
      by_cases hcp : env.copy2_ok sp = true
      · simp only [hcp, if_true] at heq
        cases hbr : caps.dest_has_blob_restore with
        | true =>
          simp only [hbr, if_true] at heq
          split at heq
          · exact absurd heq (by simp)
          · rename_i st3 evW hdc
            obtain ⟨hev, hst3⟩ := destCall_ok_inv _ _ _ _ _ hdc
            simp only [Except.ok.injEq, Prod.mk.injEq] at heq
            obtain ⟨hst', hΔ, -, -⟩ := heq
            subst hst'; subst hΔ
            have hmem : st.next_path ∈ st3.temp_blobs := by
              rw [hst3]; simp
            obtain ⟨h1, h2⟩ := hMemBlob sp { st3 with obj_count := st3.obj_count + 1 }
              (Ev.restoreBlob r.oid r.tid r.data st.next_path r.data_txn) evW hev rfl
              (by intro s p; simp) (by simpa using hmem)
            refine ⟨?_, h1, h2⟩
            intro q hq
            rw [hst3]
            simp [hq]
        | false =>
          simp only [hbr, Bool.false_eq_true, if_false] at heq
          split at heq
          · exact absurd heq (by simp)
          · rename_i st3 evW hdc
            obtain ⟨hev, hst3⟩ := destCall_ok_inv _ _ _ _ _ hdc
            simp only [Except.ok.injEq, Prod.mk.injEq] at heq
            obtain ⟨hst', hΔ, -, -⟩ := heq
            subst hst'; subst hΔ
            have hmem : st.next_path ∈ st3.temp_blobs := by
              rw [hst3]; simp
            obtain ⟨h1, h2⟩ := hMemBlob sp
              { st3 with
                obj_count := st3.obj_count + 1,
                preindex := fun o => if o = r.oid then some tid else st3.preindex o }
              _ evW hev rfl (by intro s p; simp) (by simpa using hmem)
            refine ⟨?_, h1, h2⟩
            intro q hq
            rw [hst3]
            simp [hq]
      · rw [Bool.not_eq_true] at hcp
        simp only [hcp, Bool.false_eq_true, if_false] at heq
        exact absurd heq (by simp)
    | none =>
      cases hr : caps.dest_has_restore with
      | true =>
        simp only [hr, if_true] at heq
        split at heq
        · exact absurd heq (by simp)
        · rename_i st3 evW hdc
          obtain ⟨hev, hst3⟩ := destCall_ok_inv _ _ _ _ _ hdc
          simp only [Except.ok.injEq, Prod.mk.injEq] at heq
          obtain ⟨hst', hΔ, -, -⟩ := heq
          subst hst'; subst hΔ
          obtain ⟨h1, h2⟩ := hMemPlain (Ev.restoreRec r.oid r.tid r.data r.data_txn) evW
            hev rfl (by intro s p; simp)
          refine ⟨?_, fun s p hp => absurd hp (fun hp => h1 s p hp), h2⟩
          intro q hq
          rw [hst3]
          exact hq
      | false =>
        simp only [hr, Bool.false_eq_true, if_false] at heq
        split at heq
        · exact absurd heq (by simp)
        · rename_i st3 evW hdc
          obtain ⟨hev, hst3⟩ := destCall_ok_inv _ _ _ _ _ hdc
          simp only [Except.ok.injEq, Prod.mk.injEq] at heq
          obtain ⟨hst', hΔ, -, -⟩ := heq
          subst hst'; subst hΔ
          obtain ⟨h1, h2⟩ := hMemPlain (Ev.storeRec r.oid (st.preindex r.oid) r.data) evW
            hev rfl (by intro s p; simp)
          refine ⟨?_, fun s p hp => absurd hp (fun hp => h1 s p hp), h2⟩
          intro q hq
          rw [hst3]
          exact hq
  · intro ex st' Δ heq
    unfold processRecord at heq
    rw [hc] at heq
    cases bf with
    | some sp =>
      by_cases hcp : env.copy2_ok sp = true
      · simp only [hcp, if_true] at heq
        cases hbr : caps.dest_has_blob_restore with
        | true =>
          simp only [hbr, if_true] at heq
          split at heq
          · rename_i e' st3 evW hdc
            obtain ⟨hev, -, hst3⟩ := destCall_err_inv _ _ _ _ _ _ hdc
            simp only [Except.error.injEq, Prod.mk.injEq] at heq
            obtain ⟨-, hst', hΔ⟩ := heq
            subst hst'; subst hΔ
            have hmem : st.next_path ∈ st3.temp_blobs := by
              rw [hst3]; simp
            obtain ⟨h1, h2⟩ := hMemBlob sp st3
              (Ev.restoreBlob r.oid r.tid r.data st.next_path r.data_txn) evW hev rfl
              (by intro s p; simp) hmem
            refine ⟨?_, h1, h2⟩
            intro q hq
            rw [hst3]
            simp [hq]
          · exact absurd heq (by simp)
        | false =>
          simp only [hbr, Bool.false_eq_true, if_false] at heq
          split at heq
          · rename_i e' st3 evW hdc
            obtain ⟨hev, -, hst3⟩ := destCall_err_inv _ _ _ _ _ _ hdc
            simp only [Except.error.injEq, Prod.mk.injEq] at heq
            obtain ⟨-, hst', hΔ⟩ := heq
            subst hst'; subst hΔ
            have hmem : st.next_path ∈ st3.temp_blobs := by
              rw [hst3]; simp
            obtain ⟨h1, h2⟩ := hMemBlob sp st3 _ evW hev rfl
              (by intro s p; simp) hmem
            refine ⟨?_, h1, h2⟩
            intro q hq
            rw [hst3]
            simp [hq]
          · exact absurd heq (by simp)
      · rw [Bool.not_eq_true] at hcp
        simp only [hcp, Bool.false_eq_true, if_false] at heq
        simp only [Except.error.injEq, Prod.mk.injEq] at heq
        obtain ⟨-, hst', hΔ⟩ := heq
        subst hst'; subst hΔ
        refine ⟨fun q hq => hq, ?_, ?_⟩
        · intro s p hp
          rcases List.mem_append.mp hp with hp | hp
          · exact absurd hp (hCnoCp s p)
          · rw [List.mem_singleton] at hp; exact absurd hp (by simp)
        · intro e he
          rcases List.mem_append.mp he with he | he
          · exact hCnoAb e he
          · rw [List.mem_singleton] at he; subst he; rfl
    | none =>
      cases hr : caps.dest_has_restore with
      | true =>
        simp only [hr, if_true] at heq
        split at heq
        · rename_i e' st3 evW hdc
          obtain ⟨hev, -, hst3⟩ := destCall_err_inv _ _ _ _ _ _ hdc
          simp only [Except.error.injEq, Prod.mk.injEq] at heq
          obtain ⟨-, hst', hΔ⟩ := heq
          subst hst'; subst hΔ
          obtain ⟨h1, h2⟩ := hMemPlain (Ev.restoreRec r.oid r.tid r.data r.data_txn) evW
            hev rfl (by intro s p; simp)
          refine ⟨?_, fun s p hp => absurd hp (fun hp => h1 s p hp), h2⟩
          intro q hq
          rw [hst3]
          exact hq
        · exact absurd heq (by simp)
      | false =>
        simp only [hr, Bool.false_eq_true, if_false] at heq
        split at heq
        · rename_i e' st3 evW hdc
          obtain ⟨hev, -, hst3⟩ := destCall_err_inv _ _ _ _ _ _ hdc
          simp only [Except.error.injEq, Prod.mk.injEq] at heq
          obtain ⟨-, hst', hΔ⟩ := heq
          subst hst'; subst hΔ
          obtain ⟨h1, h2⟩ := hMemPlain (Ev.storeRec r.oid (st.preindex r.oid) r.data) evW
            hev rfl (by intro s p; simp)
          refine ⟨?_, fun s p hp => absurd hp (fun hp => h1 s p hp), h2⟩
          intro q hq
          rw [hst3]
          exact hq
        · exact absurd heq (by simp)

lemma processRecords_spec (env : Env) (caps : Caps) (tid : Nat) (rs : List Record) :
    ∀ (st : St) (tb tbl : Nat),
    (∀ st' Δ tb' tbl',
       processRecords env caps tid rs st tb tbl = .ok (st', Δ, tb', tbl') →
       (∀ q ∈ st.temp_blobs, q ∈ st'.temp_blobs) ∧
       (∀ s p, Ev.copyBlob s p ∈ Δ → p ∈ st'.temp_blobs) ∧
       (∀ e ∈ Δ, isAbortEv e = false)) ∧
    (∀ ex st' Δ,
       processRecords env caps tid rs st tb tbl = .error (ex, st', Δ) →
       (∀ q ∈ st.temp_blobs, q ∈ st'.temp_blobs) ∧
       (∀ s p, Ev.copyBlob s p ∈ Δ → p ∈ st'.temp_blobs) ∧
       (∀ e ∈ Δ, isAbortEv e = false)) := by
  induction rs with
  | nil =>
    intro st tb tbl
    constructor
    · intro st' Δ tb' tbl' heq
      simp only [processRecords, Except.ok.injEq, Prod.mk.injEq] at heq
      obtain ⟨h1, h2, -, -⟩ := heq
      subst h1; subst h2
      exact ⟨fun q hq => hq, by simp, by simp⟩
    · intro ex st' Δ heq
      exact absurd heq (by simp [processRecords])
  | cons r rs ih =>
    intro st tb tbl
    constructor
    · intro st' Δ tb' tbl' heq
      rw [processRecords] at heq
      split at heq
      · exact absurd heq (by simp)
      · rename_i st1 Δ1 db dbl hpr
        split at heq
        · exact absurd heq (by simp)
        · rename_i st2 Δ2 tb2 tbl2 hps
          simp only [Except.ok.injEq, Prod.mk.injEq] at heq
          obtain ⟨h1, h2, -, -⟩ := heq
          subst h1; subst h2
          obtain ⟨m1, c1, a1⟩ := (processRecord_spec env caps tid r st).1 _ _ _ _ hpr
          obtain ⟨m2, c2, a2⟩ := ((ih st1 (tb + db) (tbl + dbl)).1) _ _ _ _ hps
          refine ⟨fun q hq => m2 q (m1 q hq), ?_, ?_⟩
          · intro s p hp
            rcases List.mem_append.mp hp with hp | hp
            · exact m2 p (c1 s p hp)
            · exact c2 s p hp
          · intro e he
            rcases List.mem_append.mp he with he | he
            · exact a1 e he
            · exact a2 e he
    · intro ex st' Δ heq
      rw [processRecords] at heq
      split at heq
      · rename_i e1 st1 Δ1 hpr
        simp only [Except.error.injEq, Prod.mk.injEq] at heq
        obtain ⟨-, h1, h2⟩ := heq
        subst h1; subst h2
        exact (processRecord_spec env caps tid r st).2 _ _ _ hpr
      · rename_i st1 Δ1 db dbl hpr
        split at heq
        · rename_i e2 st2 Δ2 hps
          simp only [Except.error.injEq, Prod.mk.injEq] at heq
          obtain ⟨-, h1, h2⟩ := heq
          subst h1; subst h2
          obtain ⟨m1, c1, a1⟩ := (processRecord_spec env caps tid r st).1 _ _ _ _ hpr
          obtain ⟨m2, c2, a2⟩ := ((ih st1 (tb + db) (tbl + dbl)).2) _ _ _ hps
          refine ⟨fun q hq => m2 q (m1 q hq), ?_, ?_⟩
          · intro s p hp
            rcases List.mem_append.mp hp with hp | hp
            · exact m2 p (c1 s p hp)
            · exact c2 s p hp
          · intro e he
            rcases List.mem_append.mp he with he | he
            · exact a1 e he
            · exact a2 e he
        · exact absurd heq (by simp)

lemma mem_ifprog (prog : Bool) (e x : Ev) (he : e ∈ (if prog = true then [x] else [])) :
    e = x := by
  cases prog with
  | true => simpa using he
  | false => simp at he

lemma processTxn_spec (env : Env) (caps : Caps) (dry prog : Bool) (t : TxnInfo) (st : St) :
    (∀ st' Δ, processTxn env caps dry prog t st = .ok (st', Δ) →
       (∀ q ∈ st.temp_blobs, Ev.unlink q ∈ Δ ∨ q ∈ st'.temp_blobs) ∧
       (∀ s p, Ev.copyBlob s p ∈ Δ → Ev.unlink p ∈ Δ ∨ p ∈ st'.temp_blobs) ∧
       (∀ e ∈ Δ, isAbortEv e = false)) ∧
    (∀ ex st' Δ, processTxn env caps dry prog t st = .error (ex, st', Δ) →
       (∀ q ∈ st.temp_blobs, Ev.unlink q ∈ Δ ∨ q ∈ st'.temp_blobs) ∧
       (∀ s p, Ev.copyBlob s p ∈ Δ → Ev.unlink p ∈ Δ ∨ p ∈ st'.temp_blobs) ∧
       (∀ e ∈ Δ, isAbortEv e = false)) := by
  cases dry with
  | true =>
    constructor
    · intro st' Δ heq
      simp only [processTxn, if_true, Except.ok.injEq, Prod.mk.injEq] at heq
      obtain ⟨h1, h2⟩ := heq
      subst h1; subst h2
      refine ⟨fun q hq => Or.inr hq, ?_, ?_⟩
      · intro s p hp
        have := mem_ifprog prog _ _ hp
        exact absurd this (by simp)
      · intro e he
        rw [mem_ifprog prog _ _ he]
        rfl
    · intro ex st' Δ heq
      exact absurd heq (by simp [processTxn])
  | false =>
    have hBEab : isAbortEv (if caps.dest_has_restore = true then
        Ev.tpcBeginRestore t.tid t.status else Ev.tpcBegin t.tid) = false := by
      cases caps.dest_has_restore <;> simp [isAbortEv]
    have hBEcp : ∀ s p, (if caps.dest_has_restore = true then
        Ev.tpcBeginRestore t.tid t.status else Ev.tpcBegin t.tid) ≠ Ev.copyBlob s p := by
      intro s p
      cases caps.dest_has_restore <;> simp
    cases hr : caps.dest_has_restore with
    | true =>
      simp only [hr, if_true] at hBEab hBEcp
      constructor
      · intro st' Δ heq
        rw [processTxn] at heq
        simp only [hr, Bool.false_eq_true, if_false, if_true] at heq
        split at heq
        · exact absurd heq (by simp)
        · rename_i st1 ev1 hdc1
          obtain ⟨hev1, hst1⟩ := destCall_ok_inv _ _ _ _ _ hdc1
          split at heq
          · exact absurd heq (by simp)
          · rename_i st2 Δ2 tb tbl hps
            obtain ⟨m2, c2, a2⟩ :=
              (processRecords_spec env caps t.tid t.records st1 0 0).1 _ _ _ _ hps
            split at heq
            · exact absurd heq (by simp)
            · rename_i st3 ev3 hdc3
              obtain ⟨hev3, hst3⟩ := destCall_ok_inv _ _ _ _ _ hdc3
              split at heq
              · exact absurd heq (by simp)
              · rename_i st4 ev4 hdc4
                obtain ⟨hev4, hst4⟩ := destCall_ok_inv _ _ _ _ _ hdc4
                simp only [Except.ok.injEq, Prod.mk.injEq] at heq
                obtain ⟨h1, h2⟩ := heq
                subst hev1; subst hev3; subst hev4
                have htb4 : st4.temp_blobs = st2.temp_blobs := by rw [hst4, hst3]
                have hq2 : ∀ q ∈ st.temp_blobs, q ∈ st2.temp_blobs := by
                  intro q hq
                  refine m2 q ?_
                  rw [hst1]
                  exact hq
                refine ⟨?_, ?_, ?_⟩
                · intro q hq
                  left
                  rw [← h2]
                  have hU : Ev.unlink q ∈ List.map Ev.unlink st4.temp_blobs := by
                    refine List.mem_map_of_mem _ ?_
                    rw [htb4]
                    exact hq2 q hq
                  simp only [List.mem_append]
                  exact Or.inl (Or.inr hU)
                · intro s p hp
                  rw [← h2] at hp
                  simp only [List.mem_append] at hp
                  rcases hp with ((((hp | hp) | hp) | hp) | hp) | hp
                  · rw [List.mem_singleton] at hp
                    exact absurd hp (by simp)
                  · left
                    rw [← h2]
                    have hU : Ev.unlink p ∈ List.map Ev.unlink st4.temp_blobs := by
                      refine List.mem_map_of_mem _ ?_
                      rw [htb4]
                      exact c2 s p hp
                    simp only [List.mem_append]
                    exact Or.inl (Or.inr hU)
                  · rw [List.mem_singleton] at hp
                    exact absurd hp (by simp)
                  · rw [List.mem_singleton] at hp
                    exact absurd hp (by simp)
                  · obtain ⟨a, -, ha⟩ := List.mem_map.mp hp
                    exact absurd ha (by simp)
                  · have := mem_ifprog prog _ _ hp
                    exact absurd this (by simp)
                · intro e he
                  rw [← h2] at he
                  simp only [List.mem_append] at he
                  rcases he with ((((he | he) | he) | he) | he) | he
                  · rw [List.mem_singleton] at he; subst he; rfl
                  · exact a2 e he
                  · rw [List.mem_singleton] at he; subst he; rfl
                  · rw [List.mem_singleton] at he; subst he; rfl
                  · obtain ⟨a, -, ha⟩ := List.mem_map.mp he
                    rw [← ha]; rfl
                  · rw [mem_ifprog prog _ _ he]; rfl
      · intro ex st' Δ heq
        rw [processTxn] at heq
        simp only [hr, Bool.false_eq_true, if_false, if_true] at heq
        split at heq
        · rename_i e1 st1 ev1 hdc1
          obtain ⟨hev1, -, hst1⟩ := destCall_err_inv _ _ _ _ _ _ hdc1
          simp only [Except.error.injEq, Prod.mk.injEq] at heq
          obtain ⟨-, h1, h2⟩ := heq
          subst h1; subst h2; subst hev1
          refine ⟨?_, ?_, ?_⟩
          · intro q hq
            right
            rw [hst1]
            exact hq
          · intro s p hp
            rw [List.mem_singleton] at hp
            exact absurd hp (by simp)
          · intro e he
            rw [List.mem_singleton] at he
            subst he; rfl
        · rename_i st1 ev1 hdc1
          obtain ⟨hev1, hst1⟩ := destCall_ok_inv _ _ _ _ _ hdc1
          split at heq
          · rename_i e2 st2 Δ2 hps
            obtain ⟨m2, c2, a2⟩ :=
              (processRecords_spec env caps t.tid t.records st1 0 0).2 _ _ _ hps
            simp only [Except.error.injEq, Prod.mk.injEq] at heq
            obtain ⟨-, h1, h2⟩ := heq
            subst h1; subst h2; subst hev1
            refine ⟨?_, ?_, ?_⟩
            · intro q hq
              right
              refine m2 q ?_
              rw [hst1]
              exact hq
            · intro s p hp
              rcases List.mem_append.mp hp with hp | hp
              · rw [List.mem_singleton] at hp
                exact absurd hp (by simp)
              · exact Or.inr (c2 s p hp)
            · intro e he
              rcases List.mem_append.mp he with he | he
              · rw [List.mem_singleton] at he; subst he; rfl
              · exact a2 e he
          · rename_i st2 Δ2 tb tbl hps
            obtain ⟨m2, c2, a2⟩ :=
              (processRecords_spec env caps t.tid t.records st1 0 0).1 _ _ _ _ hps
            split at heq
            · rename_i e3 st3 ev3 hdc3
              obtain ⟨hev3, -, hst3⟩ := destCall_err_inv _ _ _ _ _ _ hdc3
              simp only [Except.error.injEq, Prod.mk.injEq] at heq
              obtain ⟨-, h1, h2⟩ := heq
              subst h1; subst h2; subst hev1; subst hev3
              refine ⟨?_, ?_, ?_⟩
              · intro q hq
                right
                rw [hst3]
                show q ∈ st2.temp_blobs
                refine m2 q ?_
                rw [hst1]
                exact hq
              · intro s p hp
                simp only [List.mem_append] at hp
                rcases hp with (hp | hp) | hp
                · rw [List.mem_singleton] at hp
                  exact absurd hp (by simp)
                · right
                  rw [hst3]
                  show p ∈ st2.temp_blobs
                  exact c2 s p hp
                · rw [List.mem_singleton] at hp
                  exact absurd hp (by simp)
              · intro e he
                simp only [List.mem_append] at he
                rcases he with (he | he) | he
                · rw [List.mem_singleton] at he; subst he; rfl
                · exact a2 e he
                · rw [List.mem_singleton] at he; subst he; rfl
            · rename_i st3 ev3 hdc3
              obtain ⟨hev3, hst3⟩ := destCall_ok_inv _ _ _ _ _ hdc3
              split at heq
              · rename_i e4 st4 ev4 hdc4
                obtain ⟨hev4, -, hst4⟩ := destCall_err_inv _ _ _ _ _ _ hdc4
                simp only [Except.error.injEq, Prod.mk.injEq] at heq
                obtain ⟨-, h1, h2⟩ := heq
                subst h1; subst h2; subst hev1; subst hev3; subst hev4
                refine ⟨?_, ?_, ?_⟩
                · intro q hq
                  right
                  rw [hst4, hst3]
                  show q ∈ st2.temp_blobs
                  refine m2 q ?_
                  rw [hst1]
                  exact hq
                · intro s p hp
                  simp only [List.mem_append] at hp
                  rcases hp with ((hp | hp) | hp) | hp
                  · rw [List.mem_singleton] at hp
                    exact absurd hp (by simp)
                  · right
                    rw [hst4, hst3]
                    show p ∈ st2.temp_blobs
                    exact c2 s p hp
                  · rw [List.mem_singleton] at hp
                    exact absurd hp (by simp)
                  · rw [List.mem_singleton] at hp
                    exact absurd hp (by simp)
                · intro e he
                  simp only [List.mem_append] at he
                  rcases he with ((he | he) | he) | he
                  · rw [List.mem_singleton] at he; subst he; rfl
                  · exact a2 e he
                  · rw [List.mem_singleton] at he; subst he; rfl
                  · rw [List.mem_singleton] at he; subst he; rfl
              · exact absurd heq (by simp)
    | false =>
      simp only [hr, Bool.false_eq_true, if_false] at hBEab hBEcp
      constructor
      · intro st' Δ heq
        rw [processTxn] at heq
        simp only [hr, Bool.false_eq_true, if_false] at heq
        split at heq
        · exact absurd heq (by simp)
        · rename_i st1 ev1 hdc1
          obtain ⟨hev1, hst1⟩ := destCall_ok_inv _ _ _ _ _ hdc1
          split at heq
          · exact absurd heq (by simp)
          · rename_i st2 Δ2 tb tbl hps
            obtain ⟨m2, c2, a2⟩ :=
              (processRecords_spec env caps t.tid t.records st1 0 0).1 _ _ _ _ hps
            split at heq
            · exact absurd heq (by simp)
            · rename_i st3 ev3 hdc3
              obtain ⟨hev3, hst3⟩ := destCall_ok_inv _ _ _ _ _ hdc3
              split at heq
              · exact absurd heq (by simp)
              · rename_i st4 ev4 hdc4
                obtain ⟨hev4, hst4⟩ := destCall_ok_inv _ _ _ _ _ hdc4
                have htb4 : st4.temp_blobs = st2.temp_blobs := by rw [hst4, hst3]
                have hq2 : ∀ q ∈ st.temp_blobs, q ∈ st2.temp_blobs := by
                  intro q hq
                  refine m2 q ?_
                  rw [hst1]
                  exact hq
                cases hf : env.finish_tid t.tid with
                | some c =>
                  simp only [hf, Except.ok.injEq, Prod.mk.injEq] at heq
                  obtain ⟨h1, h2⟩ := heq
                  subst hev1; subst hev3; subst hev4
                  refine ⟨?_, ?_, ?_⟩
                  · intro q hq
                    left
                    rw [← h2]
                    have hU : Ev.unlink q ∈ List.map Ev.unlink st4.temp_blobs := by
                      refine List.mem_map_of_mem _ ?_
                      rw [htb4]
                      exact hq2 q hq
                    simp only [List.mem_append]
                    exact Or.inl (Or.inr hU)
                  · intro s p hp
                    rw [← h2] at hp
                    simp only [List.mem_append] at hp
                    rcases hp with ((((hp | hp) | hp) | hp) | hp) | hp
                    · rw [List.mem_singleton] at hp
                      exact absurd hp (by simp)
                    · left
                      rw [← h2]
                      have hU : Ev.unlink p ∈ List.map Ev.unlink st4.temp_blobs := by
                        refine List.mem_map_of_mem _ ?_
                        rw [htb4]
                        exact c2 s p hp
                      simp only [List.mem_append]
                      exact Or.inl (Or.inr hU)
                    · rw [List.mem_singleton] at hp
                      exact absurd hp (by simp)
                    · rw [List.mem_singleton] at hp
                      exact absurd hp (by simp)
                    · obtain ⟨a, -, ha⟩ := List.mem_map.mp hp
                      exact absurd ha (by simp)
                    · have := mem_ifprog prog _ _ hp
                      exact absurd this (by simp)
                  · intro e he
                    rw [← h2] at he
                    simp only [List.mem_append] at he
                    rcases he with ((((he | he) | he) | he) | he) | he
                    · rw [List.mem_singleton] at he; subst he; rfl
                    · exact a2 e he
                    · rw [List.mem_singleton] at he; subst he; rfl
                    · rw [List.mem_singleton] at he; subst he; rfl
                    · obtain ⟨a, -, ha⟩ := List.mem_map.mp he
                      rw [← ha]; rfl
                    · rw [mem_ifprog prog _ _ he]; rfl
                | none =>
                  simp only [hf, Except.ok.injEq, Prod.mk.injEq] at heq
                  obtain ⟨h1, h2⟩ := heq
                  subst hev1; subst hev3; subst hev4
                  refine ⟨?_, ?_, ?_⟩
                  · intro q hq
                    left
                    rw [← h2]
                    have hU : Ev.unlink q ∈ List.map Ev.unlink st4.temp_blobs := by
                      refine List.mem_map_of_mem _ ?_
                      rw [htb4]
                      exact hq2 q hq
                    simp only [List.mem_append]
                    exact Or.inl (Or.inr hU)
                  · intro s p hp
                    rw [← h2] at hp
                    simp only [List.mem_append] at hp
                    rcases hp with ((((hp | hp) | hp) | hp) | hp) | hp
                    · rw [List.mem_singleton] at hp
                      exact absurd hp (by simp)
                    · left
                      rw [← h2]
                      have hU : Ev.unlink p ∈ List.map Ev.unlink st4.temp_blobs := by
                        refine List.mem_map_of_mem _ ?_
                        rw [htb4]
                        exact c2 s p hp
                      simp only [List.mem_append]
                      exact Or.inl (Or.inr hU)
                    · rw [List.mem_singleton] at hp
                      exact absurd hp (by simp)
                    · rw [List.mem_singleton] at hp
                      exact absurd hp (by simp)
                    · obtain ⟨a, -, ha⟩ := List.mem_map.mp hp
                      exact absurd ha (by simp)
                    · have := mem_ifprog prog _ _ hp
                      exact absurd this (by simp)
                  · intro e he
                    rw [← h2] at he
                    simp only [List.mem_append] at he
                    rcases he with ((((he | he) | he) | he) | he) | he
                    · rw [List.mem_singleton] at he; subst he; rfl
                    · exact a2 e he
                    · rw [List.mem_singleton] at he; subst he; rfl
                    · rw [List.mem_singleton] at he; subst he; rfl
                    · obtain ⟨a, -, ha⟩ := List.mem_map.mp he
                      rw [← ha]; rfl
                    · rw [mem_ifprog prog _ _ he]; rfl
      · intro ex st' Δ heq
        rw [processTxn] at heq
        simp only [hr, Bool.false_eq_true, if_false] at heq
        split at heq
        · rename_i e1 st1 ev1 hdc1
          obtain ⟨hev1, -, hst1⟩ := destCall_err_inv _ _ _ _ _ _ hdc1
          simp only [Except.error.injEq, Prod.mk.injEq] at heq
          obtain ⟨-, h1, h2⟩ := heq
          subst h1; subst h2; subst hev1
          refine ⟨?_, ?_, ?_⟩
          · intro q hq
            right
            rw [hst1]
            exact hq
          · intro s p hp
            rw [List.mem_singleton] at hp
            exact absurd hp (by simp)
          · intro e he
            rw [List.mem_singleton] at he
            subst he; rfl
        · rename_i st1 ev1 hdc1
          obtain ⟨hev1, hst1⟩ := destCall_ok_inv _ _ _ _ _ hdc1
          split at heq
          · rename_i e2 st2 Δ2 hps
            obtain ⟨m2, c2, a2⟩ :=
              (processRecords_spec env caps t.tid t.records st1 0 0).2 _ _ _ hps
            simp only [Except.error.injEq, Prod.mk.injEq] at heq
            obtain ⟨-, h1, h2⟩ := heq
            subst h1; subst h2; subst hev1
            refine ⟨?_, ?_, ?_⟩
            · intro q hq
              right
              refine m2 q ?_
              rw [hst1]
              exact hq
            · intro s p hp
              rcases List.mem_append.mp hp with hp | hp
              · rw [List.mem_singleton] at hp
                exact absurd hp (by simp)
              · exact Or.inr (c2 s p hp)
            · intro e he
              rcases List.mem_append.mp he with he | he
              · rw [List.mem_singleton] at he; subst he; rfl
              · exact a2 e he
          · rename_i st2 Δ2 tb tbl hps
            obtain ⟨m2, c2, a2⟩ :=
              (processRecords_spec env caps t.tid t.records st1 0 0).1 _ _ _ _ hps
            split at heq
            · rename_i e3 st3 ev3 hdc3
              obtain ⟨hev3, -, hst3⟩ := destCall_err_inv _ _ _ _ _ _ hdc3
              simp only [Except.error.injEq, Prod.mk.injEq] at heq
              obtain ⟨-, h1, h2⟩ := heq
              subst h1; subst h2; subst hev1; subst hev3
              refine ⟨?_, ?_, ?_⟩
              · intro q hq
                right
                rw [hst3]
                show q ∈ st2.temp_blobs
                refine m2 q ?_
                rw [hst1]
                exact hq
              · intro s p hp
                simp only [List.mem_append] at hp
                rcases hp with (hp | hp) | hp
                · rw [List.mem_singleton] at hp
                  exact absurd hp (by simp)
                · right
                  rw [hst3]
                  show p ∈ st2.temp_blobs
                  exact c2 s p hp
                · rw [List.mem_singleton] at hp
                  exact absurd hp (by simp)
              · intro e he
                simp only [List.mem_append] at he
                rcases he with (he | he) | he
                · rw [List.mem_singleton] at he; subst he; rfl
                · exact a2 e he
                · rw [List.mem_singleton] at he; subst he; rfl
            · rename_i st3 ev3 hdc3
              obtain ⟨hev3, hst3⟩ := destCall_ok_inv _ _ _ _ _ hdc3
              split at heq
              · rename_i e4 st4 ev4 hdc4
                obtain ⟨hev4, -, hst4⟩ := destCall_err_inv _ _ _ _ _ _ hdc4
                simp only [Except.error.injEq, Prod.mk.injEq] at heq
                obtain ⟨-, h1, h2⟩ := heq
                subst h1; subst h2; subst hev1; subst hev3; subst hev4
                refine ⟨?_, ?_, ?_⟩
                · intro q hq
                  right
                  rw [hst4, hst3]
                  show q ∈ st2.temp_blobs
                  refine m2 q ?_
                  rw [hst1]
                  exact hq
                · intro s p hp
                  simp only [List.mem_append] at hp
                  rcases hp with ((hp | hp) | hp) | hp
                  · rw [List.mem_singleton] at hp
                    exact absurd hp (by simp)
                  · right
                    rw [hst4, hst3]
                    show p ∈ st2.temp_blobs
                    exact c2 s p hp
                  · rw [List.mem_singleton] at hp
                    exact absurd hp (by simp)
                  · rw [List.mem_singleton] at hp
                    exact absurd hp (by simp)
                · intro e he
                  simp only [List.mem_append] at he
                  rcases he with ((he | he) | he) | he
                  · rw [List.mem_singleton] at he; subst he; rfl
                  · exact a2 e he
                  · rw [List.mem_singleton] at he; subst he; rfl
                  · rw [List.mem_singleton] at he; subst he; rfl
              · cases hf : env.finish_tid t.tid with
                | some c =>
                  simp only [hf] at heq
                  exact absurd heq (by simp)
                | none =>
                  simp only [hf] at heq
                  exact absurd heq (by simp)

lemma runTxns_spec (env : Env) (caps : Caps) (dry prog : Bool) (ts : List TxnInfo) :
    ∀ st : St,
    (∀ st' Δ, runTxns env caps dry prog ts st = .ok (st', Δ) →
       (∀ q ∈ st.temp_blobs, Ev.unlink q ∈ Δ ∨ q ∈ st'.temp_blobs) ∧
       (∀ s p, Ev.copyBlob s p ∈ Δ → Ev.unlink p ∈ Δ ∨ p ∈ st'.temp_blobs) ∧
       (∀ e ∈ Δ, isAbortEv e = false)) ∧
    (∀ ex st' Δ, runTxns env caps dry prog ts st = .error (ex, st', Δ) →
       (∀ q ∈ st.temp_blobs, Ev.unlink q ∈ Δ ∨ q ∈ st'.temp_blobs) ∧
       (∀ s p, Ev.copyBlob s p ∈ Δ → Ev.unlink p ∈ Δ ∨ p ∈ st'.temp_blobs) ∧
       (∀ e ∈ Δ, isAbortEv e = false)) := by
  induction ts with
  | nil =>
    intro st
    constructor
    · intro st' Δ heq
      simp only [runTxns, Except.ok.injEq, Prod.mk.injEq] at heq
      obtain ⟨h1, h2⟩ := heq
      subst h1; subst h2
      exact ⟨fun q hq => Or.inr hq, by simp, by simp⟩
    · intro ex st' Δ heq
      exact absurd heq (by simp [runTxns])
  | cons t ts ih =>
    intro st
    have compose : ∀ (st1 stF : St) (Δ1 Δ2 : List Ev),
        ((∀ q ∈ st.temp_blobs, Ev.unlink q ∈ Δ1 ∨ q ∈ st1.temp_blobs) ∧
         (∀ s p, Ev.copyBlob s p ∈ Δ1 → Ev.unlink p ∈ Δ1 ∨ p ∈ st1.temp_blobs) ∧
         (∀ e ∈ Δ1, isAbortEv e = false)) →
        ((∀ q ∈ st1.temp_blobs, Ev.unlink q ∈ Δ2 ∨ q ∈ stF.temp_blobs) ∧
         (∀ s p, Ev.copyBlob s p ∈ Δ2 → Ev.unlink p ∈ Δ2 ∨ p ∈ stF.temp_blobs) ∧
         (∀ e ∈ Δ2, isAbortEv e = false)) →
        ((∀ q ∈ st.temp_blobs, Ev.unlink q ∈ Δ1 ++ Δ2 ∨ q ∈ stF.temp_blobs) ∧
         (∀ s p, Ev.copyBlob s p ∈ Δ1 ++ Δ2 → Ev.unlink p ∈ Δ1 ++ Δ2 ∨ p ∈ stF.temp_blobs) ∧
         (∀ e ∈ Δ1 ++ Δ2, isAbortEv e = false)) := by
      intro st1 stF Δ1 Δ2 ⟨u1, cb1, ab1⟩ ⟨u2, cb2, ab2⟩
      refine ⟨?_, ?_, ?_⟩
      · intro q hq
        rcases u1 q hq with h | h
        · exact Or.inl (List.mem_append_left _ h)
        · rcases u2 q h with h' | h'
          · exact Or.inl (List.mem_append_right _ h')
          · exact Or.inr h'
      · intro s p hp
        rcases List.mem_append.mp hp with hp | hp
        · rcases cb1 s p hp with h | h
          · exact Or.inl (List.mem_append_left _ h)
          · rcases u2 p h with h' | h'
            · exact Or.inl (List.mem_append_right _ h')
            · exact Or.inr h'
        · rcases cb2 s p hp with h | h
          · exact Or.inl (List.mem_append_right _ h)
          · exact Or.inr h
      · intro e he
        rcases List.mem_append.mp he with he | he
        · exact ab1 e he
        · exact ab2 e he
    constructor
    · intro st' Δ heq
      rw [runTxns] at heq
      split at heq
      · exact absurd heq (by simp)
      · rename_i st1 Δ1 hpt
        split at heq
        · exact absurd heq (by simp)
        · rename_i st2 Δ2 hrun
          simp only [Except.ok.injEq, Prod.mk.injEq] at heq
          obtain ⟨h1, h2⟩ := heq
          subst h1; subst h2
          exact compose st1 st2 Δ1 Δ2
            ((processTxn_spec env caps dry prog t st).1 _ _ hpt)
            ((ih st1).1 _ _ hrun)
    · intro ex st' Δ heq
      rw [runTxns] at heq
      split at heq
      · rename_i e1 st1 Δ1 hpt
        simp only [Except.error.injEq, Prod.mk.injEq] at heq
        obtain ⟨-, h1, h2⟩ := heq
        subst h1; subst h2
        exact (processTxn_spec env caps dry prog t st).2 _ _ _ hpt
      · rename_i st1 Δ1 hpt
        split at heq
        · rename_i e2 st2 Δ2 hrun
          simp only [Except.error.injEq, Prod.mk.injEq] at heq
          obtain ⟨-, h1, h2⟩ := heq
          subst h1; subst h2
          exact compose st1 st2 Δ1 Δ2
            ((processTxn_spec env caps dry prog t st).1 _ _ hpt)
            ((ih st1).2 _ _ _ hrun)
        · exact absurd heq (by simp)

/-- C3, amended: every staging file that the engine registered in its
cleanup list — equivalently, whose blob payload was successfully copied
into it (`copyBlob` event) — is unlinked by the time the invocation ends,
whether `copy_transactions` returns normally or raises.  (A staging file
created by `mkstemp` whose `shutil.copy2` population then raises is never
registered and is leaked; see the counterexample.) -/
theorem c3_theorem (env : Env) (caps : Caps) (src : List TxnInfo) (start : Option Nat)
    (dry prog : Bool) (s p : Nat)
    (hcb : Ev.copyBlob s p ∈ excTrace (copy_transactions env caps src start dry prog)) :
    Ev.unlink p ∈ excTrace (copy_transactions env caps src start dry prog) := by
  unfold copy_transactions at hcb ⊢
  cases hit : caps.source_has_iterator with
  | false =>
    rw [hit] at hcb
    simp [excTrace] at hcb
  | true =>
    rw [hit] at hcb
    simp only [Bool.true_eq_false, if_false] at hcb ⊢
    cases hrun : runTxns env caps dry prog (iterFrom src start) initSt with
    | ok pr =>
      obtain ⟨stF, Δ⟩ := pr
      rw [hrun] at hcb
      simp only [excTrace] at hcb ⊢
      obtain ⟨-, cb, -⟩ :=
        (runTxns_spec env caps dry prog (iterFrom src start) initSt).1 _ _ hrun
      rcases List.mem_append.mp hcb with hcb | hcb
      · rcases cb s p hcb with h | h
        · exact List.mem_append_left _ h
        · refine List.mem_append_right _ ?_
          unfold finallyEvs
          exact List.mem_cons_of_mem _ (List.mem_map_of_mem _ h)
      · exfalso
        unfold finallyEvs at hcb
        rcases List.mem_cons.mp hcb with h | h
        · simp at h
        · obtain ⟨a, -, ha⟩ := List.mem_map.mp h
          simp at ha
    | error tri =>
      obtain ⟨ex, stF, Δ⟩ := tri
      rw [hrun] at hcb
      simp only [excTrace] at hcb ⊢
      obtain ⟨-, cb, -⟩ :=
        (runTxns_spec env caps dry prog (iterFrom src start) initSt).2 _ _ _ hrun
      rcases List.mem_append.mp hcb with hcb | hcb
      · rcases cb s p hcb with h | h
        · exact List.mem_append_left _ h
        · refine List.mem_append_right _ ?_
          unfold finallyEvs
          exact List.mem_cons_of_mem _ (List.mem_map_of_mem _ h)
      · exfalso
        unfold finallyEvs at hcb
        rcases List.mem_cons.mp hcb with h | h
        · simp at h
        · obtain ⟨a, -, ha⟩ := List.mem_map.mp h
          simp at ha

/-- A source where record data `[9]` is a blob, `loadBlob` succeeds with
blob file 77, and the staging copy fails (`shutil.copy2` raises). -/
def envCopyFail : Env :=
  { is_blob_record := fun d => decide (d = [9]), loadBlob := fun _ _ => some 77,
    blobSize := fun _ => 5, copy2_ok := fun _ => false,
    dest_fail_at := none, finish_tid := fun _ => some 0 }

/-- C3, counterexample to the claim as stated: when `shutil.copy2` into the
staging file raises, the invocation ends with the `mkstemp`-created staging
file never unlinked — it was created before being registered in
`temp_blobs` (copier.py lines 136-141), so no cleanup path sees it. -/
theorem c3_counterexample :
    excOk (copy_transactions envCopyFail ⟨true, true, true, true, true⟩
      [⟨1, 0, [⟨3, 1, some [9], none⟩]⟩] none false false) = false ∧
    Ev.mkstemp 0 ∈ excTrace (copy_transactions envCopyFail ⟨true, true, true, true, true⟩
      [⟨1, 0, [⟨3, 1, some [9], none⟩]⟩] none false false) ∧
    Ev.unlink 0 ∉ excTrace (copy_transactions envCopyFail ⟨true, true, true, true, true⟩
      [⟨1, 0, [⟨3, 1, some [9], none⟩]⟩] none false false) := by
  decide

/-- Like `envCopyFail` but the staging copy succeeds. -/
def envBlobOk : Env :=
  { is_blob_record := fun d => decide (d = [9]), loadBlob := fun _ _ => some 77,
    blobSize := fun _ => 5, copy2_ok := fun _ => true,
    dest_fail_at := none, finish_tid := fun _ => some 0 }

theorem c3_witness :
    Ev.unlink 0 ∈ excTrace (copy_transactions envBlobOk ⟨true, true, true, true, true⟩
      [⟨1, 0, [⟨3, 1, some [9], none⟩]⟩] none false false) :=
  c3_theorem envBlobOk ⟨true, true, true, true, true⟩
    [⟨1, 0, [⟨3, 1, some [9], none⟩]⟩] none false false 77 0 (by decide)

/-- C1, amended: when `copy_transactions` raises (the source having the
iteration capability), the engine closes the source iterator, unlinks every
staging file still pending at the failure, and re-raises: the final trace is
the engine trace up to the failure followed exactly by the `finally`
cleanup, so previously committed destination transactions are untouched.
The engine never invokes `tpc_abort`; aborting the in-flight destination
transaction is left to the destination backend. -/
theorem c1_theorem (env : Env) (caps : Caps) (src : List TxnInfo) (start : Option Nat)
    (dry prog : Bool) (ex : PyExc) (stF : St) (tr : List Ev)
    (hit : caps.source_has_iterator = true)
    (h : copy_transactions env caps src start dry prog = .error (ex, stF, tr)) :
    hasAbortEv tr = false ∧
    Ev.iterClose ∈ tr ∧
    (∀ p ∈ stF.temp_blobs, Ev.unlink p ∈ tr) ∧
    ∃ ev0, runTxns env caps dry prog (iterFrom src start) initSt = .error (ex, stF, ev0) ∧
      tr = ev0 ++ finallyEvs stF := by
  unfold copy_transactions at h
  rw [hit] at h
  simp only [Bool.true_eq_false, if_false] at h
  cases hrun : runTxns env caps dry prog (iterFrom src start) initSt with
  | ok pr =>
    obtain ⟨st2, ev0⟩ := pr
    rw [hrun] at h
    exact absurd h (by simp)
  | error tri =>
    obtain ⟨e2, st2, ev0⟩ := tri
    rw [hrun] at h
    simp only [Except.error.injEq, Prod.mk.injEq] at h
    obtain ⟨he, hst, htr⟩ := h
    subst he; subst hst; subst htr
    obtain ⟨-, -, ab⟩ :=
      (runTxns_spec env caps dry prog (iterFrom src start) initSt).2 _ _ _ hrun
    refine ⟨?_, ?_, ?_, ev0, rfl, rfl⟩
    · rw [hasAbortEv, List.any_eq_false]
      intro e he
      rcases List.mem_append.mp he with he | he
      · rw [ab e he]
        simp
      · unfold finallyEvs at he
        rcases List.mem_cons.mp he with he | he
        · subst he; simp [isAbortEv]
        · obtain ⟨a, -, ha⟩ := List.mem_map.mp he
          rw [← ha]
          simp [isAbortEv]
    · exact List.mem_append_right _ (List.mem_cons_self _ _)
    · intro p hp
      refine List.mem_append_right _ ?_
      unfold finallyEvs
      exact List.mem_cons_of_mem _ (List.mem_map_of_mem _ hp)

/-- A destination whose third call (`tpc_vote` of the first transaction)
fails. -/
def envDestFail : Env :=
  { is_blob_record := fun _ => false, loadBlob := fun _ _ => none,
    blobSize := fun _ => 0, copy2_ok := fun _ => true,
    dest_fail_at := some 2, finish_tid := fun _ => some 0 }

/-- C1, counterexample to the claim as stated: on a failure between
`tpc_begin` and `tpc_finish`, the engine raises but never invokes
`tpc_abort` — no such call appears anywhere in the trace. -/
theorem c1_counterexample :
    excOk (copy_transactions envDestFail ⟨true, false, true, false, false⟩
      [⟨1, 0, [⟨10, 1, some [7], none⟩]⟩] none false false) = false ∧
    Ev.tpcBeginRestore 1 0 ∈ excTrace (copy_transactions envDestFail
      ⟨true, false, true, false, false⟩ [⟨1, 0, [⟨10, 1, some [7], none⟩]⟩] none false false) ∧
    Ev.tpcFinish 1 ∉ excTrace (copy_transactions envDestFail
      ⟨true, false, true, false, false⟩ [⟨1, 0, [⟨10, 1, some [7], none⟩]⟩] none false false) ∧
    hasAbortEv (excTrace (copy_transactions envDestFail
      ⟨true, false, true, false, false⟩ [⟨1, 0, [⟨10, 1, some [7], none⟩]⟩] none false false)) =
      false := by
  decide

theorem c1_witness :
    hasAbortEv [Ev.tpcBeginRestore 1 0, Ev.restoreRec 10 1 (some [7]) none,
      Ev.tpcVote 1, Ev.iterClose] = false ∧
    Ev.iterClose ∈ [Ev.tpcBeginRestore 1 0, Ev.restoreRec 10 1 (some [7]) none,
      Ev.tpcVote 1, Ev.iterClose] ∧
    (∀ p ∈ ({ initSt with obj_count := 1, dcalls := 3 } : St).temp_blobs,
      Ev.unlink p ∈ [Ev.tpcBeginRestore 1 0, Ev.restoreRec 10 1 (some [7]) none,
        Ev.tpcVote 1, Ev.iterClose]) ∧
    ∃ ev0, runTxns envDestFail ⟨true, false, true, false, false⟩ false false
        (iterFrom [⟨1, 0, [⟨10, 1, some [7], none⟩]⟩] none) initSt =
        .error (.generic, { initSt with obj_count := 1, dcalls := 3 }, ev0) ∧
      [Ev.tpcBeginRestore 1 0, Ev.restoreRec 10 1 (some [7]) none,
        Ev.tpcVote 1, Ev.iterClose] =
        ev0 ++ finallyEvs { initSt with obj_count := 1, dcalls := 3 } :=
  c1_theorem envDestFail ⟨true, false, true, false, false⟩
    [⟨1, 0, [⟨10, 1, some [7], none⟩]⟩] none false false .generic
    { initSt with obj_count := 1, dcalls := 3 }
    [Ev.tpcBeginRestore 1 0, Ev.restoreRec 10 1 (some [7]) none,
      Ev.tpcVote 1, Ev.iterClose] rfl rfl

lemma storePrevs_append (a b : List Ev) :
    storePrevs (a ++ b) = storePrevs a ++ storePrevs b := by
  induction a with
  | nil => rfl
  | cons e a ih => cases e <;> simp [storePrevs, ih]

lemma storePrevs_eq_nil (l : List Ev)
    (h : ∀ e ∈ l, (∃ d, e = Ev.blobCheck d) ∨ (∃ o t, e = Ev.loadBlobCall o t) ∨
      (∃ o t, e = Ev.blobWarn o t)) :
    storePrevs l = [] := by
  induction l with
  | nil => rfl
  | cons e l ih =>
    have htail := ih (fun e' he' => h e' (List.mem_cons_of_mem _ he'))
    rcases h e (List.mem_cons_self _ _) with ⟨d, rfl⟩ | ⟨o, t, rfl⟩ | ⟨o, t, rfl⟩ <;>
      simpa [storePrevs] using htail

lemma storePrevs_unlinks (l : List Nat) : storePrevs (l.map Ev.unlink) = [] := by
  induction l with
  | nil => rfl
  | cons q l ih => simpa [storePrevs] using ih

lemma storePrevs_ifprog (prog : Bool) (x y z w : Nat) :
    storePrevs (if prog = true then [Ev.progressEv x y z w] else []) = [] := by
  cases prog <;> rfl

lemma pr_fallback (env : Env) (caps : Caps) (tid : Nat) (r : Record) (st : St)
    (hr : caps.dest_has_restore = false) (hbr : caps.dest_has_blob_restore = false)
    (hOk : env.dest_fail_at = none) (hCopy : ∀ p, env.copy2_ok p = true) :
    ∃ st' Δ db dbl, processRecord env caps tid r st = .ok (st', Δ, db, dbl) ∧
      storePrevs Δ = [(r.oid, st.preindex r.oid)] ∧
      st'.preindex = (fun o => if o = r.oid then some tid else st.preindex o) := by
  have hEvC := classify_events env caps r
  rcases hc : classify env caps r with ⟨bf, evC⟩
  rw [hc] at hEvC
  have hsp : storePrevs evC = [] := storePrevs_eq_nil evC hEvC
  unfold processRecord
  rw [hc]
  cases bf with
  | some sp =>
    simp only [hCopy, if_true, hbr, Bool.false_eq_true, if_false, destCall_ok env _ _ hOk]
    refine ⟨_, _, _, _, rfl, ?_, rfl⟩
    rw [storePrevs_append, storePrevs_append, hsp]
    rfl
  | none =>
    simp only [hr, Bool.false_eq_true, if_false, destCall_ok env _ _ hOk]
    refine ⟨_, _, _, _, rfl, ?_, rfl⟩
    rw [storePrevs_append, hsp]
    rfl

lemma prs_fallback (env : Env) (caps : Caps) (tid : Nat)
    (hr : caps.dest_has_restore = false) (hbr : caps.dest_has_blob_restore = false)
    (hOk : env.dest_fail_at = none) (hCopy : ∀ p, env.copy2_ok p = true)
    (rs : List Record) :
    ∀ (st : St) (tb tbl : Nat), (rs.map Record.oid).Nodup →
    ∃ st' Δ tb' tbl', processRecords env caps tid rs st tb tbl = .ok (st', Δ, tb', tbl') ∧
      storePrevs Δ = rs.map (fun r => (r.oid, st.preindex r.oid)) ∧
      st'.preindex = (fun o => if o ∈ rs.map Record.oid then some tid else st.preindex o) := by
  induction rs with
  | nil =>
    intro st tb tbl _
    refine ⟨st, [], tb, tbl, rfl, rfl, ?_⟩
    funext o
    simp
  | cons r rs ih =>
    intro st tb tbl hnd
    have hnd' : (∀ x ∈ rs, ¬x.oid = r.oid) ∧ (rs.map Record.oid).Nodup := by
      simpa using hnd
    have hnotin : r.oid ∉ rs.map Record.oid := by
      intro hmem
      obtain ⟨x, hx, hxo⟩ := List.mem_map.mp hmem
      exact hnd'.1 x hx hxo
    have hndtail : (rs.map Record.oid).Nodup := hnd'.2
    obtain ⟨st1, Δ1, db, dbl, h1, hsp1, hpre1⟩ :=
      pr_fallback env caps tid r st hr hbr hOk hCopy
    obtain ⟨st2, Δ2, tb2, tbl2, h2, hsp2, hpre2⟩ := ih st1 (tb + db) (tbl + dbl) hndtail
    refine ⟨st2, Δ1 ++ Δ2, tb2, tbl2, ?_, ?_, ?_⟩
    · simp only [processRecords, h1, h2]
    · rw [storePrevs_append, hsp1, hsp2]
      have hmapeq : rs.map (fun r' => (r'.oid, st1.preindex r'.oid)) =
          rs.map (fun r' => (r'.oid, st.preindex r'.oid)) := by
        refine List.map_congr_left ?_
        intro r' hr'
        have hne : r'.oid ≠ r.oid := by
          intro hco
          exact hnotin (hco ▸ List.mem_map_of_mem Record.oid hr')
        rw [hpre1]
        simp [hne]
      rw [hmapeq]
      rfl
    · funext o
      rw [hpre2, hpre1]
      by_cases h1m : o ∈ rs.map Record.oid
      · simp [h1m]
      · by_cases h2m : o = r.oid
        · simp [h1m, h2m]
        · simp [h1m, h2m]

lemma pt_fallback (env : Env) (caps : Caps) (prog : Bool) (t : TxnInfo) (st : St)
    (hr : caps.dest_has_restore = false) (hbr : caps.dest_has_blob_restore = false)
    (hOk : env.dest_fail_at = none) (hCopy : ∀ p, env.copy2_ok p = true)
    (hnd : (t.records.map Record.oid).Nodup) (c : Nat)
    (hc : env.finish_tid t.tid = some c)
    (hfresh : ∀ o v, st.preindex o = some v → v ≠ t.tid) :
    ∃ st' Δ, processTxn env caps false prog t st = .ok (st', Δ) ∧
      storePrevs Δ = t.records.map (fun r => (r.oid, st.preindex r.oid)) ∧
      st'.preindex = stepMap env st.preindex t := by
  obtain ⟨st2, Δ2, tb2, tbl2, h2, hsp2, hpre2⟩ :=
    prs_fallback env caps t.tid hr hbr hOk hCopy t.records
      { st with dcalls := st.dcalls + 1 } 0 0 hnd
  have hprom : promote st2.preindex t.tid c = stepMap env st.preindex t := by
    funext o
    by_cases hm : o ∈ t.records.map Record.oid
    · simp [promote, hpre2, hm, stepMap, hc]
    · cases hv : st.preindex o with
      | none => simp [promote, hpre2, hm, hv, stepMap, hc]
      | some v =>
        have hne := hfresh o v hv
        simp [promote, hpre2, hm, hv, stepMap, hc, hne]
  unfold processTxn
  simp only [Bool.false_eq_true, if_false, hr, destCall_ok env _ _ hOk, h2, hc]
  refine ⟨_, _, rfl, ?_, ?_⟩
  · simp only [storePrevs_append, hsp2, storePrevs_unlinks, storePrevs_ifprog]
    have hpre15 : ({ st with dcalls := st.dcalls + 1 } : St).preindex = st.preindex := rfl
    rw [hpre15]
    simp [storePrevs]
  · exact hprom

lemma run_fallback (env : Env) (caps : Caps) (prog : Bool)
    (hr : caps.dest_has_restore = false) (hbr : caps.dest_has_blob_restore = false)
    (hOk : env.dest_fail_at = none) (hCopy : ∀ p, env.copy2_ok p = true)
    (ts : List TxnInfo) :
    ∀ st : St,
    (∀ t ∈ ts, (t.records.map Record.oid).Nodup) →
    (∀ t ∈ ts, (env.finish_tid t.tid).isSome = true) →
    (∀ t ∈ ts, ∀ t' ∈ ts, env.finish_tid t.tid ≠ some t'.tid) →
    (∀ o v, st.preindex o = some v → ∀ t ∈ ts, v ≠ t.tid) →
    ∃ st' Δ, runTxns env caps false prog ts st = .ok (st', Δ) ∧
      storePrevs Δ = specPrevSeq env ts st.preindex := by
  induction ts with
  | nil =>
    intro st _ _ _ _
    exact ⟨st, [], rfl, rfl⟩
  | cons t ts ih =>
    intro st hnd hfin hfr hfrSt
    obtain ⟨c, hc⟩ := Option.isSome_iff_exists.mp (hfin t (List.mem_cons_self _ _))
    obtain ⟨st1, Δ1, h1, hsp1, hpre1⟩ :=
      pt_fallback env caps prog t st hr hbr hOk hCopy (hnd t (List.mem_cons_self _ _)) c hc
        (fun o v hv => hfrSt o v hv t (List.mem_cons_self _ _))
    have hfrSt1 : ∀ o v, st1.preindex o = some v → ∀ t' ∈ ts, v ≠ t'.tid := by
      intro o v hv t' ht' hvv
      rw [hpre1] at hv
      unfold stepMap at hv
      by_cases hm : o ∈ t.records.map Record.oid
      · rw [if_pos hm] at hv
        subst hvv
        exact hfr t (List.mem_cons_self _ _) t' (List.mem_cons_of_mem _ ht') hv
      · rw [if_neg hm] at hv
        exact hfrSt o v hv t' (List.mem_cons_of_mem _ ht') hvv
    obtain ⟨st2, Δ2, h2, hsp2⟩ := ih st1
      (fun t' ht' => hnd t' (List.mem_cons_of_mem _ ht'))
      (fun t' ht' => hfin t' (List.mem_cons_of_mem _ ht'))
      (fun t' ht' t'' ht'' =>
        hfr t' (List.mem_cons_of_mem _ ht') t'' (List.mem_cons_of_mem _ ht''))
      hfrSt1
    refine ⟨st2, Δ1 ++ Δ2, by simp only [runTxns, h1, h2], ?_⟩
    rw [storePrevs_append, hsp1, hsp2, hpre1]
    simp [specPrevSeq]

/-- C4: on the fallback (no-restore) path, and given well-formed external
behaviour — distinct record OIDs within each transaction, a truthy
`tpc_finish` return for every transaction, and destination-committed TIDs
never colliding with source TIDs of the run — the `(oid, prev_serial)`
sequence of `store`/`storeBlob` calls equals the specification sequence
`specPrevSeq`: each record's prev_serial is the TID most recently committed
for its OID during this run, or null if the OID has not yet been written;
and the promotion step after `tpc_finish` rewrites exactly the preindex
entries holding the provisional source TID to the committed TID. -/
theorem c4_theorem (env : Env) (caps : Caps) (src : List TxnInfo) (start : Option Nat)
    (prog : Bool)
    (hit : caps.source_has_iterator = true)
    (hr : caps.dest_has_restore = false) (hbr : caps.dest_has_blob_restore = false)
    (hOk : env.dest_fail_at = none) (hCopy : ∀ p, env.copy2_ok p = true)
    (hnd : ∀ t ∈ iterFrom src start, (t.records.map Record.oid).Nodup)
    (hfin : ∀ t ∈ iterFrom src start, (env.finish_tid t.tid).isSome = true)
    (hfr : ∀ t ∈ iterFrom src start, ∀ t' ∈ iterFrom src start,
      env.finish_tid t.tid ≠ some t'.tid) :
    excOk (copy_transactions env caps src start false prog) = true ∧
    storePrevs (excTrace (copy_transactions env caps src start false prog)) =
      specPrevSeq env (iterFrom src start) (fun _ => none) ∧
    (∀ pre tid c o v, pre o = some v →
      promote pre tid c o = some (if v = tid then c else v)) := by
  obtain ⟨st', Δ, hrun, hsp⟩ :=
    run_fallback env caps prog hr hbr hOk hCopy (iterFrom src start) initSt hnd hfin hfr
      (by intro o v hv; simp [initSt] at hv)
  have hcopy : copy_transactions env caps src start false prog =
      .ok (st', Δ ++ finallyEvs st') := by
    unfold copy_transactions
    rw [hit]
    simp only [Bool.true_eq_false, if_false, hrun]
  refine ⟨by rw [hcopy]; rfl, ?_, ?_⟩
  · rw [hcopy]
    simp only [excTrace]
    rw [storePrevs_append]
    have hfe : storePrevs (finallyEvs st') = [] := by
      unfold finallyEvs
      simpa [storePrevs] using storePrevs_unlinks st'.temp_blobs
    rw [hfe, List.append_nil]
    exact hsp
  · intro pre tid c o v hv
    unfold promote
    rw [hv]
    by_cases hvt : v = tid <;> simp [hvt]

/-- A fallback-path environment: the destination assigns the committed TID
`tid + 100` to the transaction with source TID `tid`. -/
def envC4 : Env :=
  { is_blob_record := fun _ => false, loadBlob := fun _ _ => none,
    blobSize := fun _ => 0, copy2_ok := fun _ => true,
    dest_fail_at := none, finish_tid := fun tid => some (tid + 100) }

theorem c4_witness :
    excOk (copy_transactions envC4 ⟨true, false, false, false, false⟩
      [⟨1, 0, [⟨7, 1, some [1], none⟩]⟩, ⟨2, 0, [⟨7, 2, some [2], none⟩]⟩]
      none false false) = true ∧
    storePrevs (excTrace (copy_transactions envC4 ⟨true, false, false, false, false⟩
      [⟨1, 0, [⟨7, 1, some [1], none⟩]⟩, ⟨2, 0, [⟨7, 2, some [2], none⟩]⟩]
      none false false)) =
      specPrevSeq envC4
        (iterFrom [⟨1, 0, [⟨7, 1, some [1], none⟩]⟩, ⟨2, 0, [⟨7, 2, some [2], none⟩]⟩] none)
        (fun _ => none) ∧
    (∀ pre tid c o v, pre o = some v →
      promote pre tid c o = some (if v = tid then c else v)) :=
  c4_theorem envC4 ⟨true, false, false, false, false⟩
    [⟨1, 0, [⟨7, 1, some [1], none⟩]⟩, ⟨2, 0, [⟨7, 2, some [2], none⟩]⟩]
    none false rfl rfl rfl rfl (fun _ => rfl) (by decide) (by decide) (by decide)
